import Mathlib

/-
Shallow embedding of the "mostly-copying" garbage collector of src/main.c
(Bartlett-style collector, one C translation unit).

Modelling conventions:
* Machine words are natural numbers; the code assumes 32-bit ints, and the
  places where wraparound actually matters use an explicit mod 2^32.
* Pointers (values of the C type GCP, i.e. int*) are byte addresses, as in C.
  All pointer arithmetic steps by WORDBYTES = 4 bytes, so the low bit of a
  genuine pointer is 0, which is what the forwarding-bit trick relies on.
  The null pointer is the address 0.
* The heap memory, and the three page-directory arrays space, pageQueue and
  typeMapping, are total functions Nat -> Nat updated pointwise.  The C
  arrays are index-biased by firstheappage; the functions are simply read at
  the absolute page number, which is the same thing.
* The single bounds-unchecked space read in move (line 133 of main.c) is
  modelled observably: an argument outside the heap page range makes move
  return the error oobSpace, reflecting that the C code would read outside
  the page directory (undefined behaviour).  All other directory accesses in
  the module are bounds-correct by construction and are modelled as plain
  reads/writes.
* The C stack scan in collect reads the machine stack; the words it would
  read are passed in as an explicit list (hints).  The global root cells
  (the globalp array) are passed as the list of their addresses (cells);
  their contents live in the modelled memory.
* gcalloc / allocatepage / collect / move are mutually recursive in C
  (collect's sweep moves objects, move allocates).  The knot is tied by a
  fuel parameter; fuel exhaustion is the distinct result Res.out, and the
  two fatal exit(1) paths are the distinct errors outOfSpace ("out of space
  during collect") and unableToAlloc ("unable to allocate n pages").
-/

/-- PAGEBYTES of main.c: bytes per page. -/
def PAGEBYTES : Nat := 512

/-- WORDBYTES of main.c: sizeof(int) = 4. -/
def WORDBYTES : Nat := 4

/-- PAGEWORDS of main.c: words per page. -/
def PAGEWORDS : Nat := PAGEBYTES / WORDBYTES

/-- Page type OBJECT. -/
def OBJECT : Nat := 0

/-- Page type CONTINUED. -/
def CONTINUED : Nat := 1

/-- PAGE_to_GCP: first byte address of a page. -/
def PAGE_to_GCP (p : Nat) : Nat := p * PAGEBYTES

/-- GCP_to_PAGE: page number of a byte address. -/
def GCP_to_PAGE (p : Nat) : Nat := p / PAGEBYTES

/-- MAKE_HEADER(words, ptrs) = ptrs<<17 | words<<1 | 1. -/
def MAKE_HEADER (words ptrs : Nat) : Nat := ptrs <<< 17 ||| words <<< 1 ||| 1

/-- FORWARDED(header): low bit 0 means the word is a forwarding pointer. -/
def FORWARDED (header : Nat) : Prop := header &&& 1 = 0

instance (header : Nat) : Decidable (FORWARDED header) := by
  unfold FORWARDED; infer_instance

/-- HEADER_PTRS(header) = header>>17 & 0x7FFF. -/
def HEADER_PTRS (header : Nat) : Nat := header >>> 17 &&& 0x7FFF

/-- HEADER_WORDS(header) = header>>1 & 0xFFFF. -/
def HEADER_WORDS (header : Nat) : Nat := header >>> 1 &&& 0xFFFF

/-- HEADER_BYTES(header) = (header>>1 & 0xFFFF) * WORDBYTES. -/
def HEADER_BYTES (header : Nat) : Nat := (header >>> 1 &&& 0xFFFF) * WORDBYTES

/-- Pointwise update of a Nat-indexed array/memory. -/
def upd (f : Nat → Nat) (i v : Nat) : Nat → Nat :=
  fun j => if j = i then v else f j

/-- The mutable state of the module: every file-scope variable of main.c.
Field names follow the C variables. -/
@[ext]
structure GC where
  firstheappage : Nat
  lastheappage : Nat
  numOfHeapPages : Nat
  numFreeWordsInCurrent : Nat
  firstFreeWordInPage : Nat
  numOfAllocatedPages : Nat
  firstFreePage : Nat
  space : Nat → Nat
  pageQueue : Nat → Nat
  typeMapping : Nat → Nat
  queue_head : Nat
  queue_tail : Nat
  current_space : Nat
  next_space : Nat
  mem : Nat → Nat

/-- The two fatal exit(1) paths of the module, plus the modelled
out-of-bounds page-directory read in move. -/
inductive GCErr where
  | outOfSpace
  | unableToAlloc
  | oobSpace
deriving DecidableEq

/-- Result of a (possibly failing, fuel-bounded) operation. -/
inductive Res (α : Type) where
  | ok (a : α)
  | err (e : GCErr)
  | out

/-- next_page of main.c: advance a page index with wraparound. -/
def next_page (st : GC) (page : Nat) : Nat :=
  if page = st.lastheappage then st.firstheappage else page + 1

/-- queue of main.c: append a page to the intrusive page queue. -/
def queue (st : GC) (page : Nat) : GC :=
  let st1 :=
    if st.queue_head ≠ 0 then
      { st with pageQueue := upd st.pageQueue st.queue_tail page }
    else
      { st with queue_head := page }
  { st1 with pageQueue := upd st1.pageQueue page 0, queue_tail := page }

/-- The backward walk of promote_page: while typeMapping[page] == CONTINUED,
count the page as promoted, retag it to next_space and step to page-1.
Returns the state and the page the walk stopped on (the Object page).
The C walk would fall off the bottom of the address space below page 0;
page 0 is never a heap page (the heap is malloc'd), so the walk is cut off
there. -/
def promoteWalk (st : GC) : Nat → GC × Nat
  | 0 => (st, 0)
  | page + 1 =>
    if st.typeMapping (page + 1) = CONTINUED then
      promoteWalk
        { st with
            numOfAllocatedPages := st.numOfAllocatedPages + 1,
            space := upd st.space (page + 1) st.next_space }
        page
    else (st, page + 1)

/-- promote_page of main.c.  Also returns the list of pages passed to
queue during this call (used to state the at-most-once-enqueued claims). -/
def promote_page (st : GC) (page : Nat) : GC × List Nat :=
  if st.firstheappage ≤ page ∧ page ≤ st.lastheappage ∧
      st.space page = st.current_space then
    let w := promoteWalk st page
    let st2 :=
      { w.1 with
          space := upd w.1.space w.2 w.1.next_space,
          numOfAllocatedPages := w.1.numOfAllocatedPages + 1 }
    (queue st2 w.2, [w.2])
  else (st, [])

/-- The conservative phase of collect: promote the page of every word that
the stack scan reads.  Returns the state and the concatenated enqueue
trace. -/
def scanStack (st : GC) : List Nat → GC × List Nat
  | [] => (st, [])
  | w :: ws =>
    let r := promote_page st (GCP_to_PAGE w)
    let r2 := scanStack r.1 ws
    (r2.1, r.2 ++ r2.2)

/-- Sealing the current allocation page: if any free words remain, write a
filler header over them; the free count becomes 0.  This is the code at
lines 186-189 (collect) and 338-339 (gcalloc) of main.c. -/
def sealCurrent (st : GC) : GC :=
  if st.numFreeWordsInCurrent ≠ 0 then
    { st with
        mem := upd st.mem st.firstFreeWordInPage
          (MAKE_HEADER st.numFreeWordsInCurrent 0),
        numFreeWordsInCurrent := 0 }
  else st

/-- The copy loop of move: while (cnt--) *to++ = *from++, stepping by one
word (4 bytes). -/
def copyWords (st : GC) : Nat → Nat → Nat → GC
  | 0, _, _ => st
  | cnt + 1, src, dst =>
    copyWords { st with mem := upd st.mem dst (st.mem src) } cnt (src + 4) (dst + 4)

/-- The pointer-nulling loop of gcalloc: for (i = 1; i <= pointers; i++)
firstFreeWordInPage[i] = NULL.  i is the current index, k the number of
slots still to null. -/
def nullPtrsFrom (st : GC) (ff : Nat) : Nat → Nat → GC
  | _, 0 => st
  | i, k + 1 =>
    nullPtrsFrom { st with mem := upd st.mem (ff + 4 * i) 0 } ff (i + 1) k

/-- The tail of allocatepage's assignment block:
while (--numOfPages) { space[++firstFreePageIndex] = next_space;
typeMapping[firstFreePageIndex] = CONTINUED; }.
idx is the current value of firstFreePageIndex, k the remaining count. -/
def tagCont (st : GC) : Nat → Nat → GC
  | _, 0 => st
  | idx, k + 1 =>
    tagCont
      { st with
          space := upd st.space (idx + 1) st.next_space,
          typeMapping := upd st.typeMapping (idx + 1) CONTINUED }
      (idx + 1) k

/-- The assignment block of allocatepage (lines 248-259 of main.c), run when
a run of n contiguous free pages starting at base has been found while
firstFreePage sits on the last page of the run. -/
def apAssign (st : GC) (base n : Nat) : GC :=
  let st1 := { st with firstFreeWordInPage := PAGE_to_GCP base }
  let st2 :=
    if st1.current_space ≠ st1.next_space then queue st1 base else st1
  let st3 :=
    { st2 with
        numFreeWordsInCurrent := n * PAGEWORDS,
        numOfAllocatedPages := st2.numOfAllocatedPages + n,
        firstFreePage := next_page st2 st2.firstFreePage }
  let st4 :=
    { st3 with
        space := upd st3.space base st3.next_space,
        typeMapping := upd st3.typeMapping base OBJECT }
  tagCont st4 base (n - 1)

/-- The scan loop of allocatepage (lines 241-266 of main.c).  n is the
number of pages wanted, freeRun the current run length (numOfFreePages),
firstIdx the first page of the run (firstFreePageIndex), k the remaining
loop count (allpages).  Running out of iterations is the fatal
"Unable to allocate ... pages" exit. -/
def apScan (st : GC) (n : Nat) : Nat → Nat → Nat → Res GC
  | _, _, 0 => .err .unableToAlloc
  | freeRun, firstIdx, k + 1 =>
    if st.space st.firstFreePage ≠ st.current_space ∧
        st.space st.firstFreePage ≠ st.next_space then
      let firstIdx1 := if freeRun = 0 then st.firstFreePage else firstIdx
      let freeRun1 := freeRun + 1
      if freeRun1 = n then .ok (apAssign st firstIdx1 n)
      else
        let st1 := { st with firstFreePage := next_page st st.firstFreePage }
        let freeRun2 := if st1.firstFreePage = st1.firstheappage then 0 else freeRun1
        apScan st1 n freeRun2 firstIdx1 k
    else
      let st1 := { st with firstFreePage := next_page st st.firstFreePage }
      let freeRun2 := if st1.firstFreePage = st1.firstheappage then 0 else 0
      apScan st1 n freeRun2 firstIdx k

/-- The exact-root phase of collect: cnt = globals; while (cnt--)
*globalp[cnt] = move(*globalp[cnt]).  The cells are visited from the
highest index down, so collect passes the reversed cell list. -/
def moveCells (mv : GC → Nat → Res (GC × Nat)) : List Nat → GC → Res GC
  | [], st => .ok st
  | c :: cs, st =>
    match mv st (st.mem c) with
    | .ok (st1, np) => moveCells mv cs { st1 with mem := upd st1.mem c np }
    | .err e => .err e
    | .out => .out

/-- The innermost sweep loop: while (cnt--) { *pp = move(*pp); pp++; }. -/
def sweepPtrs (mv : GC → Nat → Res (GC × Nat)) : Nat → Nat → GC → Res GC
  | 0, _, st => .ok st
  | cnt + 1, pp, st =>
    match mv st (st.mem pp) with
    | .ok (st1, np) =>
      sweepPtrs mv cnt (pp + 4) { st1 with mem := upd st1.mem pp np }
    | .err e => .err e
    | .out => .out

/-- The object walk across one promoted page: while the cursor cp is still
on page queue_head and has not reached the allocation frontier, move the
object's pointer slots and step by HEADER_WORDS(*cp) words. -/
def sweepPageF (mv : GC → Nat → Res (GC × Nat)) : Nat → GC → Nat → Res GC
  | fuel, st, cp =>
    if GCP_to_PAGE cp = st.queue_head ∧ cp ≠ st.firstFreeWordInPage then
      match fuel with
      | 0 => .out
      | f + 1 =>
        match sweepPtrs mv (HEADER_PTRS (st.mem cp)) (cp + 4) st with
        | .ok st1 => sweepPageF mv f st1 (cp + 4 * HEADER_WORDS (st1.mem cp))
        | .err e => .err e
        | .out => .out
    else .ok st

/-- The outer sweep loop of collect: while (queue_head != 0) sweep the head
page, then queue_head = pageQueue[queue_head]. -/
def sweepQueueF (mv : GC → Nat → Res (GC × Nat)) : Nat → GC → Res GC
  | fuel, st =>
    if st.queue_head = 0 then .ok st
    else
      match fuel with
      | 0 => .out
      | f + 1 =>
        match sweepPageF mv f st (PAGE_to_GCP st.queue_head) with
        | .ok st1 =>
          sweepQueueF mv f { st1 with queue_head := st1.pageQueue st1.queue_head }
        | .err e => .err e
        | .out => .out

/-- collect of main.c, with the move function passed in.  hints are the
words the conservative stack/register scan reads, cells the addresses of
the registered global root cells. -/
def collectF (mv : GC → Nat → Res (GC × Nat)) (fuel : Nat)
    (hints cells : List Nat) (st : GC) : Res GC :=
  if st.next_space ≠ st.current_space then .err .outOfSpace
  else
    let st1 := sealCurrent st
    let st2 :=
      { st1 with
          next_space := (st1.current_space + 1) &&& 0o77777,
          numOfAllocatedPages := 0,
          queue_head := 0 }
    let st3 := (scanStack st2 hints).1
    match moveCells mv cells.reverse st3 with
    | .ok st4 =>
      match sweepQueueF mv fuel st4 with
      | .ok st5 => .ok { st5 with current_space := st5.next_space }
      | .err e => .err e
      | .out => .out
    | .err e => .err e
    | .out => .out

/-- allocatepage of main.c: half-heap watermark check, then the free-run
scan. -/
def allocatepageF (mv : GC → Nat → Res (GC × Nat)) (fuel : Nat)
    (hints cells : List Nat) (st : GC) (numOfPages : Nat) : Res GC :=
  if st.numOfAllocatedPages + numOfPages ≥ st.numOfHeapPages / 2 then
    collectF mv fuel hints cells st
  else
    apScan st numOfPages 0 0 st.numOfHeapPages

/-- The page-acquisition loop of gcalloc: while (words >
numFreeWordsInCurrent) { seal; allocatepage(ceil(words/PAGEWORDS)); }. -/
def gcallocLoopF (mv : GC → Nat → Res (GC × Nat)) : Nat → List Nat → List Nat →
    GC → Nat → Res GC
  | fuel, hints, cells, st, words =>
    if words ≤ st.numFreeWordsInCurrent then .ok st
    else
      match fuel with
      | 0 => .out
      | f + 1 =>
        let st1 := { sealCurrent st with numFreeWordsInCurrent := 0 }
        match allocatepageF mv f hints cells st1
            ((words + PAGEWORDS - 1) / PAGEWORDS) with
        | .ok st2 => gcallocLoopF mv f hints cells st2 words
        | .err e => .err e
        | .out => .out

/-- gcalloc of main.c, with the move function passed in.  Returns the final
state and the object pointer (one word past the header). -/
def gcallocF (mv : GC → Nat → Res (GC × Nat)) (fuel : Nat)
    (hints cells : List Nat) (st : GC) (bytes pointers : Nat) : Res (GC × Nat) :=
  let words := (bytes + WORDBYTES - 1) / WORDBYTES + 1
  match gcallocLoopF mv fuel hints cells st words with
  | .ok st1 =>
    let st2 :=
      { st1 with
          mem := upd st1.mem st1.firstFreeWordInPage (MAKE_HEADER words pointers) }
    let st3 := nullPtrsFrom st2 st2.firstFreeWordInPage 1 pointers
    let object := st3.firstFreeWordInPage + 4
    let st4 :=
      if words < PAGEWORDS then
        { st3 with
            numFreeWordsInCurrent := st3.numFreeWordsInCurrent - words,
            firstFreeWordInPage := st3.firstFreeWordInPage + 4 * words }
      else { st3 with numFreeWordsInCurrent := 0 }
    .ok (st4, object)
  | .err e => .err e
  | .out => .out

/-- move of main.c; ties the recursive knot through the fuel.  The byte
count passed to gcalloc is HEADER_BYTES(header) - 4 computed in the 32-bit
unsigned arithmetic of size_t. -/
def moveF : Nat → List Nat → List Nat → GC → Nat → Res (GC × Nat)
  | 0, _, _, _, _ => .out
  | f + 1, hints, cells, st, cp =>
    if cp = 0 then .ok (st, cp)
    else if ¬(st.firstheappage ≤ GCP_to_PAGE cp ∧
        GCP_to_PAGE cp ≤ st.lastheappage) then .err .oobSpace
    else if st.space (GCP_to_PAGE cp) = st.next_space then .ok (st, cp)
    else
      let header := st.mem (cp - 4)
      if FORWARDED header then .ok (st, header)
      else
        match gcallocF (moveF f hints cells) f hints cells st
            ((HEADER_BYTES header + (2 ^ 32 - 4)) % 2 ^ 32) 0 with
        | .ok (st1, np) =>
          let st2 := copyWords st1 (HEADER_WORDS header) (cp - 4) (np - 4)
          .ok ({ st2 with mem := upd st2.mem (cp - 4) np }, np)
        | .err e => .err e
        | .out => .out

/-- Top-level move. -/
def move (fuel : Nat) (hints cells : List Nat) (st : GC) (cp : Nat) :
    Res (GC × Nat) :=
  moveF fuel hints cells st cp

/-- Top-level gcalloc. -/
def gcalloc (fuel : Nat) (hints cells : List Nat) (st : GC)
    (bytes pointers : Nat) : Res (GC × Nat) :=
  gcallocF (moveF fuel hints cells) fuel hints cells st bytes pointers

/-- Top-level collect. -/
def collect (fuel : Nat) (hints cells : List Nat) (st : GC) : Res GC :=
  collectF (moveF fuel hints cells) fuel hints cells st

/-- Top-level allocatepage. -/
def allocatepage (fuel : Nat) (hints cells : List Nat) (st : GC)
    (numOfPages : Nat) : Res GC :=
  allocatepageF (moveF fuel hints cells) fuel hints cells st numOfPages

/-- The space-zeroing loop of gcinit: for (i = firstheappage; i <=
lastheappage; i++) space[i] = 0. -/
def zeroSpace : (Nat → Nat) → Nat → Nat → Nat → Nat
  | sp, _, 0 => sp
  | sp, i, k + 1 => zeroSpace (upd sp i 0) (i + 1) k

/-- The global-cell nulling of gcinit: each registered cell is set to NULL. -/
def zeroCells : (Nat → Nat) → List Nat → Nat → Nat
  | m, [] => m
  | m, c :: cs => zeroCells (upd m c 0) cs

/-- gcinit of main.c.  heapAddr is the (page-aligned) address malloc
returned for the heap; the junk functions model the uninitialized contents
of the malloc'd directory arrays and of memory.  The C file-scope variables
not assigned by gcinit start as 0 (C static initialization). -/
def gcinitState (heapBytes heapAddr : Nat) (cells : List Nat)
    (junkSpace junkQueue junkType junkMem : Nat → Nat) : GC :=
  let numPages := heapBytes / PAGEBYTES
  let fhp := GCP_to_PAGE heapAddr
  { firstheappage := fhp
    lastheappage := fhp + numPages - 1
    numOfHeapPages := numPages
    numFreeWordsInCurrent := 0
    firstFreeWordInPage := 0
    numOfAllocatedPages := 0
    firstFreePage := fhp
    space := zeroSpace junkSpace fhp numPages
    pageQueue := junkQueue
    typeMapping := junkType
    queue_head := 0
    queue_tail := 0
    current_space := 1
    next_space := 1
    mem := zeroCells junkMem cells }

/-- The all-zero function, used as the concrete junk in closed runs. -/
def zf : Nat → Nat := fun _ => 0

/-! ### Arithmetic facts about the header encoding -/

theorem lor_shiftLeft_add (a b k : Nat) (hb : b < 2 ^ k) :
    (a <<< k) ||| b = a * 2 ^ k + b := by
  rw [Nat.shiftLeft_eq, Nat.mul_comm a (2 ^ k), ← Nat.mul_add_lt_is_or hb a]

theorem MAKE_HEADER_eq (w p : Nat) (hw : w < 65536) :
    MAKE_HEADER w p = p * 131072 + 2 * w + 1 := by
  unfold MAKE_HEADER
  have h1 : p <<< 17 ||| w <<< 1 = p * 131072 + 2 * w := by
    have hb : w <<< 1 < 2 ^ 17 := by
      rw [Nat.shiftLeft_eq]
      norm_num
      omega
    rw [lor_shiftLeft_add _ _ _ hb, Nat.shiftLeft_eq]
    norm_num
    ring
  rw [h1]
  have h2 : p * 131072 + 2 * w = (p * 65536 + w) <<< 1 := by
    rw [Nat.shiftLeft_eq]
    ring
  rw [h2, lor_shiftLeft_add _ _ _ (by norm_num : (1:Nat) < 2 ^ 1),
    Nat.shiftLeft_eq]

theorem lor_one_mod_two (x : Nat) : (x ||| 1) % 2 = 1 := by
  have h := Nat.testBit_lor x 1 0
  have h1 : Nat.testBit 1 0 = true := by decide
  rw [h1, Bool.or_true] at h
  rw [Nat.testBit_to_div_mod] at h
  simp only [pow_zero, Nat.div_one] at h
  exact of_decide_eq_true h

theorem MAKE_HEADER_mod_two (w p : Nat) : (MAKE_HEADER w p) % 2 = 1 := by
  unfold MAKE_HEADER
  exact lor_one_mod_two _

theorem HEADER_WORDS_make (w p : Nat) (hw : w < 65536) :
    HEADER_WORDS (MAKE_HEADER w p) = w := by
  unfold HEADER_WORDS
  rw [MAKE_HEADER_eq w p hw, Nat.shiftRight_eq_div_pow]
  have : (0xFFFF : Nat) = 2 ^ 16 - 1 := by norm_num
  rw [this, Nat.and_pow_two_sub_one_eq_mod]
  omega

theorem HEADER_PTRS_make (w p : Nat) (hw : w < 65536) (hp : p < 32768) :
    HEADER_PTRS (MAKE_HEADER w p) = p := by
  unfold HEADER_PTRS
  rw [MAKE_HEADER_eq w p hw, Nat.shiftRight_eq_div_pow]
  have : (0x7FFF : Nat) = 2 ^ 15 - 1 := by norm_num
  rw [this, Nat.and_pow_two_sub_one_eq_mod]
  omega

theorem HEADER_WORDS_lt (h : Nat) : HEADER_WORDS h < 65536 := by
  unfold HEADER_WORDS
  have := Nat.and_le_right (n := h >>> 1) (m := 0xFFFF)
  omega

theorem FORWARDED_iff (h : Nat) : FORWARDED h ↔ h % 2 = 0 := by
  unfold FORWARDED
  rw [Nat.and_one_is_mod]

theorem mask15_eq_mod (x : Nat) : x &&& 0o77777 = x % 32768 := by
  have : (0o77777 : Nat) = 2 ^ 15 - 1 := by norm_num
  rw [this, Nat.and_pow_two_sub_one_eq_mod]

/-! ### Which fields each state helper touches -/

theorem sealCurrent_onlyMem (st : GC) :
    sealCurrent st =
      { st with mem := (sealCurrent st).mem, numFreeWordsInCurrent := 0 } := by
  unfold sealCurrent
  split
  · rfl
  · rename_i h
    simp only [ne_eq, not_not] at h
    ext <;> simp [h]

@[simp]
theorem sealCurrent_numFree (st : GC) :
    (sealCurrent st).numFreeWordsInCurrent = 0 := by
  rw [sealCurrent_onlyMem]

@[simp]
theorem sealCurrent_space (st : GC) : (sealCurrent st).space = st.space := by
  rw [sealCurrent_onlyMem]

@[simp]
theorem sealCurrent_next (st : GC) :
    (sealCurrent st).next_space = st.next_space := by
  rw [sealCurrent_onlyMem]

@[simp]
theorem sealCurrent_current (st : GC) :
    (sealCurrent st).current_space = st.current_space := by
  rw [sealCurrent_onlyMem]

@[simp]
theorem sealCurrent_ff (st : GC) :
    (sealCurrent st).firstFreeWordInPage = st.firstFreeWordInPage := by
  rw [sealCurrent_onlyMem]

@[simp]
theorem sealCurrent_fhp (st : GC) :
    (sealCurrent st).firstheappage = st.firstheappage := by
  rw [sealCurrent_onlyMem]

@[simp]
theorem sealCurrent_lhp (st : GC) :
    (sealCurrent st).lastheappage = st.lastheappage := by
  rw [sealCurrent_onlyMem]

@[simp]
theorem sealCurrent_nhp (st : GC) :
    (sealCurrent st).numOfHeapPages = st.numOfHeapPages := by
  rw [sealCurrent_onlyMem]

@[simp]
theorem sealCurrent_alloc (st : GC) :
    (sealCurrent st).numOfAllocatedPages = st.numOfAllocatedPages := by
  rw [sealCurrent_onlyMem]

@[simp]
theorem sealCurrent_ffp (st : GC) :
    (sealCurrent st).firstFreePage = st.firstFreePage := by
  rw [sealCurrent_onlyMem]

theorem sealCurrent_mem (st : GC) (a : Nat) :
    (sealCurrent st).mem a =
      if st.numFreeWordsInCurrent ≠ 0 ∧ a = st.firstFreeWordInPage then
        MAKE_HEADER st.numFreeWordsInCurrent 0
      else st.mem a := by
  unfold sealCurrent
  split
  · rename_i h
    simp only [upd]
    split
    · rename_i h2
      simp [h, h2]
    · rename_i h2
      simp [h2]
  · rename_i h
    simp at h
    simp [h]

theorem copyWords_onlyMem (cnt : Nat) : ∀ st src dst,
    copyWords st cnt src dst =
      { st with mem := (copyWords st cnt src dst).mem } := by
  induction cnt with
  | zero => intro st src dst; rfl
  | succ c ih =>
    intro st src dst
    show copyWords _ c _ _ = _
    rw [ih]
    rfl

@[simp]
theorem copyWords_space (st : GC) (c s d : Nat) :
    (copyWords st c s d).space = st.space := by
  rw [copyWords_onlyMem]

@[simp]
theorem copyWords_next (st : GC) (c s d : Nat) :
    (copyWords st c s d).next_space = st.next_space := by
  rw [copyWords_onlyMem]

@[simp]
theorem copyWords_current (st : GC) (c s d : Nat) :
    (copyWords st c s d).current_space = st.current_space := by
  rw [copyWords_onlyMem]

@[simp]
theorem copyWords_fhp (st : GC) (c s d : Nat) :
    (copyWords st c s d).firstheappage = st.firstheappage := by
  rw [copyWords_onlyMem]

@[simp]
theorem copyWords_lhp (st : GC) (c s d : Nat) :
    (copyWords st c s d).lastheappage = st.lastheappage := by
  rw [copyWords_onlyMem]

@[simp]
theorem copyWords_ff (st : GC) (c s d : Nat) :
    (copyWords st c s d).firstFreeWordInPage = st.firstFreeWordInPage := by
  rw [copyWords_onlyMem]

@[simp]
theorem copyWords_numFree (st : GC) (c s d : Nat) :
    (copyWords st c s d).numFreeWordsInCurrent = st.numFreeWordsInCurrent := by
  rw [copyWords_onlyMem]

@[simp]
theorem copyWords_nhp (st : GC) (c s d : Nat) :
    (copyWords st c s d).numOfHeapPages = st.numOfHeapPages := by
  rw [copyWords_onlyMem]

theorem nullPtrsFrom_onlyMem (k : Nat) : ∀ st ff i,
    nullPtrsFrom st ff i k =
      { st with mem := (nullPtrsFrom st ff i k).mem } := by
  induction k with
  | zero => intro st ff i; rfl
  | succ c ih =>
    intro st ff i
    show nullPtrsFrom _ _ (i + 1) c = _
    rw [ih]
    rfl

@[simp]
theorem nullPtrsFrom_space (st : GC) (ff i k : Nat) :
    (nullPtrsFrom st ff i k).space = st.space := by
  rw [nullPtrsFrom_onlyMem]

@[simp]
theorem nullPtrsFrom_next (st : GC) (ff i k : Nat) :
    (nullPtrsFrom st ff i k).next_space = st.next_space := by
  rw [nullPtrsFrom_onlyMem]

@[simp]
theorem nullPtrsFrom_current (st : GC) (ff i k : Nat) :
    (nullPtrsFrom st ff i k).current_space = st.current_space := by
  rw [nullPtrsFrom_onlyMem]

@[simp]
theorem nullPtrsFrom_ff (st : GC) (ff i k : Nat) :
    (nullPtrsFrom st ff i k).firstFreeWordInPage = st.firstFreeWordInPage := by
  rw [nullPtrsFrom_onlyMem]

@[simp]
theorem nullPtrsFrom_numFree (st : GC) (ff i k : Nat) :
    (nullPtrsFrom st ff i k).numFreeWordsInCurrent =
      st.numFreeWordsInCurrent := by
  rw [nullPtrsFrom_onlyMem]

@[simp]
theorem nullPtrsFrom_fhp (st : GC) (ff i k : Nat) :
    (nullPtrsFrom st ff i k).firstheappage = st.firstheappage := by
  rw [nullPtrsFrom_onlyMem]

@[simp]
theorem nullPtrsFrom_lhp (st : GC) (ff i k : Nat) :
    (nullPtrsFrom st ff i k).lastheappage = st.lastheappage := by
  rw [nullPtrsFrom_onlyMem]

@[simp]
theorem nullPtrsFrom_nhp (st : GC) (ff i k : Nat) :
    (nullPtrsFrom st ff i k).numOfHeapPages = st.numOfHeapPages := by
  rw [nullPtrsFrom_onlyMem]

theorem queue_onlyQueue (st : GC) (p : Nat) :
    queue st p =
      { st with
          pageQueue := (queue st p).pageQueue,
          queue_head := (queue st p).queue_head,
          queue_tail := (queue st p).queue_tail } := by
  unfold queue
  split <;> rfl

@[simp]
theorem queue_space (st : GC) (p : Nat) : (queue st p).space = st.space := by
  rw [queue_onlyQueue]

@[simp]
theorem queue_mem (st : GC) (p : Nat) : (queue st p).mem = st.mem := by
  rw [queue_onlyQueue]

@[simp]
theorem queue_next (st : GC) (p : Nat) :
    (queue st p).next_space = st.next_space := by
  rw [queue_onlyQueue]

@[simp]
theorem queue_current (st : GC) (p : Nat) :
    (queue st p).current_space = st.current_space := by
  rw [queue_onlyQueue]

@[simp]
theorem queue_ff (st : GC) (p : Nat) :
    (queue st p).firstFreeWordInPage = st.firstFreeWordInPage := by
  rw [queue_onlyQueue]

@[simp]
theorem queue_numFree (st : GC) (p : Nat) :
    (queue st p).numFreeWordsInCurrent = st.numFreeWordsInCurrent := by
  rw [queue_onlyQueue]

@[simp]
theorem queue_alloc (st : GC) (p : Nat) :
    (queue st p).numOfAllocatedPages = st.numOfAllocatedPages := by
  rw [queue_onlyQueue]

@[simp]
theorem queue_ffp (st : GC) (p : Nat) :
    (queue st p).firstFreePage = st.firstFreePage := by
  rw [queue_onlyQueue]

@[simp]
theorem queue_fhp (st : GC) (p : Nat) :
    (queue st p).firstheappage = st.firstheappage := by
  rw [queue_onlyQueue]

@[simp]
theorem queue_lhp (st : GC) (p : Nat) :
    (queue st p).lastheappage = st.lastheappage := by
  rw [queue_onlyQueue]

@[simp]
theorem queue_nhp (st : GC) (p : Nat) :
    (queue st p).numOfHeapPages = st.numOfHeapPages := by
  rw [queue_onlyQueue]

@[simp]
theorem queue_type (st : GC) (p : Nat) :
    (queue st p).typeMapping = st.typeMapping := by
  rw [queue_onlyQueue]

theorem tagCont_onlySpaceType (k : Nat) : ∀ st idx,
    tagCont st idx k =
      { st with
          space := (tagCont st idx k).space,
          typeMapping := (tagCont st idx k).typeMapping } := by
  induction k with
  | zero => intro st idx; rfl
  | succ c ih =>
    intro st idx
    show tagCont _ (idx + 1) c = _
    rw [ih]
    rfl

@[simp]
theorem tagCont_mem (st : GC) (idx k : Nat) :
    (tagCont st idx k).mem = st.mem := by
  rw [tagCont_onlySpaceType]

@[simp]
theorem tagCont_next (st : GC) (idx k : Nat) :
    (tagCont st idx k).next_space = st.next_space := by
  rw [tagCont_onlySpaceType]

@[simp]
theorem tagCont_current (st : GC) (idx k : Nat) :
    (tagCont st idx k).current_space = st.current_space := by
  rw [tagCont_onlySpaceType]

@[simp]
theorem tagCont_ff (st : GC) (idx k : Nat) :
    (tagCont st idx k).firstFreeWordInPage = st.firstFreeWordInPage := by
  rw [tagCont_onlySpaceType]

@[simp]
theorem tagCont_numFree (st : GC) (idx k : Nat) :
    (tagCont st idx k).numFreeWordsInCurrent = st.numFreeWordsInCurrent := by
  rw [tagCont_onlySpaceType]

@[simp]
theorem tagCont_alloc (st : GC) (idx k : Nat) :
    (tagCont st idx k).numOfAllocatedPages = st.numOfAllocatedPages := by
  rw [tagCont_onlySpaceType]

@[simp]
theorem tagCont_ffp (st : GC) (idx k : Nat) :
    (tagCont st idx k).firstFreePage = st.firstFreePage := by
  rw [tagCont_onlySpaceType]

@[simp]
theorem tagCont_fhp (st : GC) (idx k : Nat) :
    (tagCont st idx k).firstheappage = st.firstheappage := by
  rw [tagCont_onlySpaceType]

@[simp]
theorem tagCont_lhp (st : GC) (idx k : Nat) :
    (tagCont st idx k).lastheappage = st.lastheappage := by
  rw [tagCont_onlySpaceType]

@[simp]
theorem tagCont_nhp (st : GC) (idx k : Nat) :
    (tagCont st idx k).numOfHeapPages = st.numOfHeapPages := by
  rw [tagCont_onlySpaceType]

@[simp]
theorem tagCont_qh (st : GC) (idx k : Nat) :
    (tagCont st idx k).queue_head = st.queue_head := by
  rw [tagCont_onlySpaceType]

@[simp]
theorem tagCont_qt (st : GC) (idx k : Nat) :
    (tagCont st idx k).queue_tail = st.queue_tail := by
  rw [tagCont_onlySpaceType]

@[simp]
theorem tagCont_pq (st : GC) (idx k : Nat) :
    (tagCont st idx k).pageQueue = st.pageQueue := by
  rw [tagCont_onlySpaceType]

theorem tagCont_space_eq (k : Nat) : ∀ st idx q,
    (tagCont st idx k).space q =
      if idx + 1 ≤ q ∧ q ≤ idx + k then st.next_space else st.space q := by
  induction k with
  | zero =>
    intro st idx q
    have h : ¬(idx + 1 ≤ q ∧ q ≤ idx + 0) := by omega
    rw [if_neg h]
    rfl
  | succ c ih =>
    intro st idx q
    show (tagCont _ (idx + 1) c).space q = _
    rw [ih]
    simp only [upd]
    split_ifs with h1 h2 h3 h4 h5 <;> first | rfl | omega | (exfalso; omega)

theorem apAssign_mem (st : GC) (base n : Nat) :
    (apAssign st base n).mem = st.mem := by
  simp only [apAssign]
  split <;> simp

theorem apAssign_next (st : GC) (base n : Nat) :
    (apAssign st base n).next_space = st.next_space := by
  simp only [apAssign]
  split <;> simp

theorem apAssign_current (st : GC) (base n : Nat) :
    (apAssign st base n).current_space = st.current_space := by
  simp only [apAssign]
  split <;> simp

theorem apAssign_fhp (st : GC) (base n : Nat) :
    (apAssign st base n).firstheappage = st.firstheappage := by
  simp only [apAssign]
  split <;> simp

theorem apAssign_lhp (st : GC) (base n : Nat) :
    (apAssign st base n).lastheappage = st.lastheappage := by
  simp only [apAssign]
  split <;> simp

theorem apAssign_nhp (st : GC) (base n : Nat) :
    (apAssign st base n).numOfHeapPages = st.numOfHeapPages := by
  simp only [apAssign]
  split <;> simp

theorem apAssign_ff (st : GC) (base n : Nat) :
    (apAssign st base n).firstFreeWordInPage = PAGE_to_GCP base := by
  simp only [apAssign]
  split <;> simp

theorem apAssign_numFree (st : GC) (base n : Nat) :
    (apAssign st base n).numFreeWordsInCurrent = n * PAGEWORDS := by
  simp only [apAssign]
  split <;> simp

theorem apAssign_alloc (st : GC) (base n : Nat) :
    (apAssign st base n).numOfAllocatedPages = st.numOfAllocatedPages + n := by
  simp only [apAssign]
  split <;> simp

theorem apAssign_space (st : GC) (base n : Nat) (hn : 1 ≤ n) (q : Nat) :
    (apAssign st base n).space q =
      if base ≤ q ∧ q ≤ base + (n - 1) then st.next_space else st.space q := by
  simp only [apAssign]
  split <;>
    (simp only [tagCont_space_eq, queue_space, queue_next, upd]
     split_ifs <;> first | rfl | omega | simp_all)

/-- A page is free in the sense of the allocatepage scan. -/
def freePage (st : GC) (p : Nat) : Prop :=
  st.space p ≠ st.current_space ∧ st.space p ≠ st.next_space

instance (st : GC) (p : Nat) : Decidable (freePage st p) := by
  unfold freePage; infer_instance

theorem apScan_ok_char (k : Nat) : ∀ st n freeRun firstIdx st',
    apScan st n freeRun firstIdx k = .ok st' →
    1 ≤ n →
    (freeRun = 0 ∨
      (freeRun < n ∧ firstIdx + freeRun = st.firstFreePage ∧
        ∀ i < freeRun, freePage st (firstIdx + i))) →
    ∃ base ffp,
      (∀ i < n, freePage st (base + i)) ∧
      st' = apAssign { st with firstFreePage := ffp } base n := by
  induction k with
  | zero =>
    intro st n freeRun firstIdx st' h
    simp [apScan] at h
  | succ c ih =>
    intro st n freeRun firstIdx st' h hn hinv
    rw [show apScan st n freeRun firstIdx (c + 1) =
      (if st.space st.firstFreePage ≠ st.current_space ∧
          st.space st.firstFreePage ≠ st.next_space then
        let firstIdx1 := if freeRun = 0 then st.firstFreePage else firstIdx
        let freeRun1 := freeRun + 1
        if freeRun1 = n then .ok (apAssign st firstIdx1 n)
        else
          let st1 := { st with firstFreePage := next_page st st.firstFreePage }
          let freeRun2 :=
            if st1.firstFreePage = st1.firstheappage then 0 else freeRun1
          apScan st1 n freeRun2 firstIdx1 c
      else
        let st1 := { st with firstFreePage := next_page st st.firstFreePage }
        let freeRun2 := if st1.firstFreePage = st1.firstheappage then 0 else 0
        apScan st1 n freeRun2 firstIdx c) from rfl] at h
    by_cases hfree : st.space st.firstFreePage ≠ st.current_space ∧
        st.space st.firstFreePage ≠ st.next_space
    · rw [if_pos hfree] at h
      by_cases hfull : freeRun + 1 = n
      · rw [if_pos hfull] at h
        simp only [Res.ok.injEq] at h
        refine ⟨if freeRun = 0 then st.firstFreePage else firstIdx,
          st.firstFreePage, ?_, ?_⟩
        · intro i hi
          by_cases h0 : freeRun = 0
          · simp only [h0, if_pos]
            have : n = 1 := by omega
            have : i = 0 := by omega
            subst this
            simpa using hfree
          · rw [if_neg h0]
            rcases hinv with h1 | ⟨h2, h3, h4⟩
            · exact absurd h1 h0
            · by_cases hlt : i < freeRun
              · exact h4 i hlt
              · have : i = freeRun := by omega
                subst this
                rw [h3]
                exact hfree
        · rw [← h.symm]
      · rw [if_neg hfull] at h
        simp only at h
        set st1 := { st with firstFreePage := next_page st st.firstFreePage }
          with hst1
        by_cases hwrap : st1.firstFreePage = st1.firstheappage
        · rw [if_pos hwrap] at h
          obtain ⟨base, ffp, hfr, hres⟩ := ih st1 n 0
            (if freeRun = 0 then st.firstFreePage else firstIdx) st' h hn
            (Or.inl rfl)
          exact ⟨base, ffp, hfr, hres⟩
        · rw [if_neg hwrap] at h
          have hstep : st1.firstFreePage = st.firstFreePage + 1 := by
            simp only [hst1]
            unfold next_page
            split
            · rename_i heq
              exfalso
              apply hwrap
              simp [hst1, next_page, heq]
            · rfl
          have hlt : freeRun + 1 < n := by
            rcases hinv with h1 | ⟨h2, h3, h4⟩ <;> omega
          have hidx : (if freeRun = 0 then st.firstFreePage else firstIdx) +
              (freeRun + 1) = st1.firstFreePage := by
            rw [hstep]
            by_cases h0 : freeRun = 0
            · simp [h0]
            · rw [if_neg h0]
              rcases hinv with h1 | ⟨h2, h3, h4⟩
              · exact absurd h1 h0
              · omega
          have hfr1 : ∀ i < freeRun + 1,
              freePage st1 ((if freeRun = 0 then st.firstFreePage else firstIdx) + i) := by
            intro i hi
            show freePage st _
            by_cases h0 : freeRun = 0
            · have : i = 0 := by omega
              subst this
              simp only [h0, if_pos]
              simpa using hfree
            · rw [if_neg h0]
              rcases hinv with h1 | ⟨h2, h3, h4⟩
              · exact absurd h1 h0
              · by_cases hlt2 : i < freeRun
                · exact h4 i hlt2
                · have : i = freeRun := by omega
                  subst this
                  rw [h3]
                  exact hfree
          obtain ⟨base, ffp, hfr, hres⟩ := ih st1 n (freeRun + 1)
            (if freeRun = 0 then st.firstFreePage else firstIdx) st' h hn
            (Or.inr ⟨hlt, hidx, hfr1⟩)
          exact ⟨base, ffp, hfr, hres⟩
    · rw [if_neg hfree] at h
      simp only at h
      set st1 := { st with firstFreePage := next_page st st.firstFreePage }
        with hst1
      rw [ite_self] at h
      obtain ⟨base, ffp, hfr, hres⟩ := ih st1 n 0 firstIdx st' h hn (Or.inl rfl)
      exact ⟨base, ffp, hfr, hres⟩

/-- Word count gcalloc derives from a byte count (user words plus header). -/
def gwords (bytes : Nat) : Nat := (bytes + WORDBYTES - 1) / WORDBYTES + 1

theorem collectF_ne (mv : GC → Nat → Res (GC × Nat)) (fuel : Nat)
    (hints cells : List Nat) (st : GC)
    (hne : st.next_space ≠ st.current_space) :
    collectF mv fuel hints cells st = .err .outOfSpace := by
  unfold collectF
  rw [if_pos hne]

/-- The state the acquisition loop passes to allocatepage: the sealed page. -/
def sealedSt (st : GC) : GC :=
  { sealCurrent st with numFreeWordsInCurrent := 0 }

theorem sealedSt_eq (st : GC) : sealedSt st = sealCurrent st := by
  unfold sealedSt
  ext <;> simp

theorem allocatepageF_ok_ne (mv : GC → Nat → Res (GC × Nat)) (fuel : Nat)
    (hints cells : List Nat) (st st' : GC) (n : Nat)
    (hne : st.next_space ≠ st.current_space)
    (h : allocatepageF mv fuel hints cells st n = .ok st') :
    apScan st n 0 0 st.numOfHeapPages = .ok st' := by
  unfold allocatepageF at h
  split at h
  · rw [collectF_ne mv fuel hints cells st hne] at h
    exact absurd h (by simp)
  · exact h

theorem gcallocLoopF_ok_ne (mv : GC → Nat → Res (GC × Nat)) (fuel : Nat)
    (hints cells : List Nat) (st st1 : GC) (words : Nat)
    (hne : st.next_space ≠ st.current_space)
    (h : gcallocLoopF mv fuel hints cells st words = .ok st1) :
    words ≤ st1.numFreeWordsInCurrent ∧
    (st1 = st ∨
      ∃ base ffp,
        (∀ i < (words + PAGEWORDS - 1) / PAGEWORDS,
          freePage (sealedSt st) (base + i)) ∧
        st1 = apAssign { sealedSt st with firstFreePage := ffp } base
          ((words + PAGEWORDS - 1) / PAGEWORDS)) := by
  rw [gcallocLoopF.eq_def] at h
  dsimp only at h
  by_cases hle : words ≤ st.numFreeWordsInCurrent
  · rw [if_pos hle] at h
    simp only [Res.ok.injEq] at h
    subst h
    exact ⟨hle, Or.inl rfl⟩
  · rw [if_neg hle] at h
    match fuel with
    | 0 => exact absurd h (by simp)
    | f + 1 =>
      simp only at h
      have hwpos : 1 ≤ words := by omega
      have hNpos : 1 ≤ (words + PAGEWORDS - 1) / PAGEWORDS := by
        have hpw : PAGEWORDS = 128 := by norm_num [PAGEWORDS, PAGEBYTES, WORDBYTES]
        rw [hpw]
        omega
      cases hap : allocatepageF mv f hints cells
          { sealCurrent st with numFreeWordsInCurrent := 0 }
          ((words + PAGEWORDS - 1) / PAGEWORDS) with
      | ok st2 =>
        rw [hap] at h
        dsimp only at h
        have hne2 : ({ sealCurrent st with
            numFreeWordsInCurrent := 0 } : GC).next_space ≠
            ({ sealCurrent st with
              numFreeWordsInCurrent := 0 } : GC).current_space := by
          simpa using hne
        have hscan := allocatepageF_ok_ne mv f hints cells _ st2 _ hne2 hap
        obtain ⟨base, ffp, hfr, hst2⟩ :=
          apScan_ok_char _ _ _ 0 0 st2 hscan hNpos (Or.inl rfl)
        have hfree2 : st2.numFreeWordsInCurrent =
            ((words + PAGEWORDS - 1) / PAGEWORDS) * PAGEWORDS := by
          rw [hst2, apAssign_numFree]
        have hge : words ≤ st2.numFreeWordsInCurrent := by
          rw [hfree2]
          have hpw : PAGEWORDS = 128 := by norm_num [PAGEWORDS, PAGEBYTES, WORDBYTES]
          rw [hpw]
          omega
        rw [gcallocLoopF.eq_def] at h
        dsimp only at h
        rw [if_pos hge] at h
        simp only [Res.ok.injEq] at h
        subst h
        exact ⟨hge, Or.inr ⟨base, ffp, hfr, hst2⟩⟩
      | err e =>
        rw [hap] at h
        exact absurd h (by simp)
      | out =>
        rw [hap] at h
        exact absurd h (by simp)

@[simp]
theorem upd_same (f : Nat → Nat) (i v : Nat) : upd f i v i = v := by
  simp [upd]

theorem upd_other (f : Nat → Nat) (i v a : Nat) (h : a ≠ i) :
    upd f i v a = f a := by
  simp [upd, h]

theorem nullPtrsFrom_mem_out (k : Nat) : ∀ st ff i a,
    (∀ j, i ≤ j → j < i + k → a ≠ ff + 4 * j) →
    (nullPtrsFrom st ff i k).mem a = st.mem a := by
  induction k with
  | zero => intro st ff i a _; rfl
  | succ c ih =>
    intro st ff i a hout
    show (nullPtrsFrom _ _ (i + 1) c).mem a = _
    rw [ih _ _ _ _ (fun j hj1 hj2 => hout j (by omega) (by omega))]
    exact upd_other _ _ _ _ (hout i (by omega) (by omega))

theorem nullPtrsFrom_mem_in (k : Nat) : ∀ st ff i j, i ≤ j → j < i + k →
    (nullPtrsFrom st ff i k).mem (ff + 4 * j) = 0 := by
  induction k with
  | zero => intro st ff i j h1 h2; omega
  | succ c ih =>
    intro st ff i j h1 h2
    show (nullPtrsFrom _ _ (i + 1) c).mem _ = 0
    by_cases hj : j = i
    · subst hj
      rw [nullPtrsFrom_mem_out c _ _ _ _ (fun j2 hj1 hj2 => by
        intro heq
        have : j = j2 := by omega
        omega)]
      simp
    · exact ih _ _ (i + 1) j (by omega) (by omega)

theorem copyWords_mem_out (cnt : Nat) : ∀ st src dst a,
    (∀ j < cnt, a ≠ dst + 4 * j) →
    (copyWords st cnt src dst).mem a = st.mem a := by
  induction cnt with
  | zero => intro st src dst a _; rfl
  | succ c ih =>
    intro st src dst a hout
    show (copyWords _ c (src + 4) (dst + 4)).mem a = _
    rw [ih _ _ _ _ (fun j hj => by
      have := hout (j + 1) (by omega)
      omega)]
    exact upd_other _ _ _ _ (by have := hout 0 (by omega); omega)

theorem copyWords_mem_in (cnt : Nat) : ∀ st src dst,
    (∀ i1 j1, i1 < cnt → j1 < cnt → src + 4 * i1 ≠ dst + 4 * j1) →
    ∀ i < cnt, (copyWords st cnt src dst).mem (dst + 4 * i) = st.mem (src + 4 * i) := by
  induction cnt with
  | zero => intro st src dst _ i hi; omega
  | succ c ih =>
    intro st src dst hdisj i hi
    show (copyWords { st with mem := upd st.mem dst (st.mem src) } c
      (src + 4) (dst + 4)).mem _ = _
    by_cases h0 : i = 0
    · subst h0
      rw [copyWords_mem_out c _ _ _ _ (fun j hj => by omega)]
      simp only [Nat.mul_zero, Nat.add_zero]
      rw [upd_same]
    · have hi1 : i - 1 < c := by omega
      have := ih { st with mem := upd st.mem dst (st.mem src) } (src + 4) (dst + 4)
        (fun i1 j1 hi1 hj1 => by
          have := hdisj (i1 + 1) (j1 + 1) (by omega) (by omega)
          omega) (i - 1) hi1
      have harr : dst + 4 + 4 * (i - 1) = dst + 4 * i := by omega
      have harr2 : src + 4 + 4 * (i - 1) = src + 4 * i := by omega
      rw [harr, harr2] at this
      rw [this]
      simp only
      exact upd_other _ _ _ _ (by
        have := hdisj (i) 0 (by omega) (by omega)
        omega)

/-- During a collection, every word of the current allocation frontier lies
on a next_space page.  This is the allocation-frontier invariant the
collector maintains. -/
def INVnext (st : GC) : Prop :=
  ∀ k < st.numFreeWordsInCurrent,
    st.space (GCP_to_PAGE (st.firstFreeWordInPage + 4 * k)) = st.next_space

instance (st : GC) : Decidable (INVnext st) := by
  unfold INVnext; infer_instance

/-- Abbreviation for the disjunction produced by gcallocLoopF_ok_ne. -/
def loopCase (st st1 : GC) (words : Nat) : Prop :=
  st1 = st ∨
    ∃ base ffp,
      (∀ i < (words + PAGEWORDS - 1) / PAGEWORDS,
        freePage (sealedSt st) (base + i)) ∧
      st1 = apAssign { sealedSt st with firstFreePage := ffp } base
        ((words + PAGEWORDS - 1) / PAGEWORDS)

theorem loopSt1_cn (st st1 : GC) (words : Nat) (hcase : loopCase st st1 words) :
    st1.current_space = st.current_space ∧ st1.next_space = st.next_space ∧
    st1.firstheappage = st.firstheappage ∧
    st1.lastheappage = st.lastheappage ∧
    st1.numOfHeapPages = st.numOfHeapPages := by
  rcases hcase with rfl | ⟨base, ffp, _, rfl⟩
  · exact ⟨rfl, rfl, rfl, rfl, rfl⟩
  · refine ⟨?_, ?_, ?_, ?_, ?_⟩ <;>
      simp [apAssign_current, apAssign_next, apAssign_fhp, apAssign_lhp,
        apAssign_nhp, sealedSt]

theorem loopSt1_space_cur (st st1 : GC) (words : Nat) (hw : 1 ≤ words)
    (hcase : loopCase st st1 words) :
    ∀ q, st.space q = st.current_space → st1.space q = st.space q := by
  have hpw : PAGEWORDS = 128 := by norm_num [PAGEWORDS, PAGEBYTES, WORDBYTES]
  have hn1 : 1 ≤ (words + PAGEWORDS - 1) / PAGEWORDS := by rw [hpw]; omega
  rcases hcase with rfl | ⟨base, ffp, hfr, rfl⟩
  · intro q _; rfl
  · intro q hq
    rw [apAssign_space _ _ _ hn1]
    split_ifs with hin
    · exfalso
      obtain ⟨h1, h2⟩ := hfr (q - base) (by omega)
      have heq : base + (q - base) = q := by omega
      rw [heq] at h1 h2
      simp [sealedSt] at h1 h2
      exact h1 hq
    · simp [sealedSt]

theorem loopSt1_space_next (st st1 : GC) (words : Nat) (hw : 1 ≤ words)
    (hcase : loopCase st st1 words) :
    ∀ q, st.space q = st.next_space → st1.space q = st.next_space := by
  have hpw : PAGEWORDS = 128 := by norm_num [PAGEWORDS, PAGEBYTES, WORDBYTES]
  have hn1 : 1 ≤ (words + PAGEWORDS - 1) / PAGEWORDS := by rw [hpw]; omega
  rcases hcase with rfl | ⟨base, ffp, hfr, rfl⟩
  · intro q hq; exact hq
  · intro q hq
    rw [apAssign_space _ _ _ hn1]
    split_ifs with hin
    · simp [sealedSt]
    · simpa [sealedSt] using hq

theorem loopSt1_inv (st st1 : GC) (words : Nat) (hw : 1 ≤ words)
    (hinv : INVnext st) (hcase : loopCase st st1 words) :
    INVnext st1 := by
  rcases hcase with rfl | ⟨base, ffp, hfr, rfl⟩
  · exact hinv
  · intro k hk
    have hpw : PAGEWORDS = 128 := by norm_num [PAGEWORDS, PAGEBYTES, WORDBYTES]
    have hn1 : 1 ≤ (words + PAGEWORDS - 1) / PAGEWORDS := by rw [hpw]; omega
    rw [apAssign_numFree] at hk
    rw [apAssign_ff, apAssign_space _ _ _ hn1]
    have hpage : GCP_to_PAGE (PAGE_to_GCP base + 4 * k) = base + 4 * k / 512 := by
      unfold GCP_to_PAGE PAGE_to_GCP PAGEBYTES
      omega
    rw [hpage]
    rw [if_pos (by
      rw [hpw] at hk hn1 ⊢
      omega)]
    rw [apAssign_next]

theorem loopSt1_mem (st st1 : GC) (words : Nat) (hcase : loopCase st st1 words) :
    ∀ a, st1.mem a ≠ st.mem a →
      st.numFreeWordsInCurrent ≠ 0 ∧ a = st.firstFreeWordInPage := by
  rcases hcase with rfl | ⟨base, ffp, hfr, rfl⟩
  · intro a ha; exact absurd rfl ha
  · intro a ha
    have hm : (apAssign { sealedSt st with firstFreePage := ffp } base
        ((words + PAGEWORDS - 1) / PAGEWORDS)).mem a = (sealCurrent st).mem a := by
      rw [apAssign_mem]
      rfl
    rw [hm] at ha
    rw [sealCurrent_mem] at ha
    by_cases hc : st.numFreeWordsInCurrent ≠ 0 ∧ a = st.firstFreeWordInPage
    · exact hc
    · rw [if_neg hc] at ha
      exact absurd rfl ha

theorem gcallocF_ok_ne (mv : GC → Nat → Res (GC × Nat)) (fuel : Nat)
    (hints cells : List Nat) (st st4 : GC) (p bytes ptrs : Nat)
    (hne : st.next_space ≠ st.current_space)
    (hinv : INVnext st)
    (hptrs : ptrs < gwords bytes)
    (h : gcallocF mv fuel hints cells st bytes ptrs = .ok (st4, p)) :
    (st4.current_space = st.current_space ∧ st4.next_space = st.next_space ∧
      st4.firstheappage = st.firstheappage ∧
      st4.lastheappage = st.lastheappage) ∧
    (∀ q, st.space q = st.current_space → st4.space q = st.current_space) ∧
    st4.mem (p - 4) = MAKE_HEADER (gwords bytes) ptrs ∧
    (∀ i, 1 ≤ i → i ≤ ptrs → st4.mem (p - 4 + 4 * i) = 0) ∧
    (∀ a, st4.mem a ≠ st.mem a → st4.space (GCP_to_PAGE a) = st.next_space) ∧
    (∀ k < gwords bytes, st4.space (GCP_to_PAGE (p - 4 + 4 * k)) = st.next_space) ∧
    (4 ∣ st.firstFreeWordInPage → p % 4 = 0) ∧ 4 ≤ p := by
  unfold gcallocF at h
  dsimp only at h
  cases hloop : gcallocLoopF mv fuel hints cells st
      ((bytes + WORDBYTES - 1) / WORDBYTES + 1) with
  | err e => rw [hloop] at h; exact absurd h (by simp)
  | out => rw [hloop] at h; exact absurd h (by simp)
  | ok st1 =>
    rw [hloop] at h
    dsimp only at h
    simp only [Res.ok.injEq, Prod.mk.injEq] at h
    obtain ⟨h4, hp⟩ := h
    have hW : gwords bytes = (bytes + WORDBYTES - 1) / WORDBYTES + 1 := rfl
    have hW1 : 1 ≤ gwords bytes := by rw [hW]; omega
    obtain ⟨hge, hcase⟩ := gcallocLoopF_ok_ne mv fuel hints cells st st1
      ((bytes + WORDBYTES - 1) / WORDBYTES + 1) hne hloop
    have hcn := loopSt1_cn st st1 _ hcase
    have hcur := loopSt1_space_cur st st1 _ (hW ▸ hW1) hcase
    have hnextp := loopSt1_space_next st st1 _ (hW ▸ hW1) hcase
    have hinv1 := loopSt1_inv st st1 _ (hW ▸ hW1) hinv hcase
    have hmem1 := loopSt1_mem st st1 _ hcase
    have hffdvd : 4 ∣ st.firstFreeWordInPage → 4 ∣ st1.firstFreeWordInPage := by
      rcases hcase with rfl | ⟨base, ffp, _, rfl⟩
      · exact id
      · intro _
        rw [apAssign_ff]
        unfold PAGE_to_GCP PAGEBYTES
        omega
    subst h4
    subst hp
    constructor
    · refine ⟨?_, ?_, ?_, ?_⟩ <;> (split <;> simp [hcn.1, hcn.2.1, hcn.2.2.1, hcn.2.2.2.1])
    constructor
    · intro q hq
      have : st1.space q = st.space q := hcur q hq
      split <;> simp [this, hq]
    have hm4mem : ∀ a,
        (if (bytes + WORDBYTES - 1) / WORDBYTES + 1 < PAGEWORDS then
          ({ (nullPtrsFrom { st1 with
              mem := upd st1.mem st1.firstFreeWordInPage
                (MAKE_HEADER ((bytes + WORDBYTES - 1) / WORDBYTES + 1) ptrs) }
            st1.firstFreeWordInPage 1 ptrs) with
            numFreeWordsInCurrent :=
              (nullPtrsFrom { st1 with
                mem := upd st1.mem st1.firstFreeWordInPage
                  (MAKE_HEADER ((bytes + WORDBYTES - 1) / WORDBYTES + 1) ptrs) }
                st1.firstFreeWordInPage 1 ptrs).numFreeWordsInCurrent -
                ((bytes + WORDBYTES - 1) / WORDBYTES + 1),
            firstFreeWordInPage :=
              (nullPtrsFrom { st1 with
                mem := upd st1.mem st1.firstFreeWordInPage
                  (MAKE_HEADER ((bytes + WORDBYTES - 1) / WORDBYTES + 1) ptrs) }
                st1.firstFreeWordInPage 1 ptrs).firstFreeWordInPage +
                4 * ((bytes + WORDBYTES - 1) / WORDBYTES + 1) } : GC)
        else
          { (nullPtrsFrom { st1 with
              mem := upd st1.mem st1.firstFreeWordInPage
                (MAKE_HEADER ((bytes + WORDBYTES - 1) / WORDBYTES + 1) ptrs) }
            st1.firstFreeWordInPage 1 ptrs) with
            numFreeWordsInCurrent := 0 }).mem a =
        (nullPtrsFrom { st1 with
            mem := upd st1.mem st1.firstFreeWordInPage
              (MAKE_HEADER ((bytes + WORDBYTES - 1) / WORDBYTES + 1) ptrs) }
          st1.firstFreeWordInPage 1 ptrs).mem a := by
      intro a
      split <;> rfl
    have hsp4 : ∀ q,
        (if (bytes + WORDBYTES - 1) / WORDBYTES + 1 < PAGEWORDS then
          ({ (nullPtrsFrom { st1 with
              mem := upd st1.mem st1.firstFreeWordInPage
                (MAKE_HEADER ((bytes + WORDBYTES - 1) / WORDBYTES + 1) ptrs) }
            st1.firstFreeWordInPage 1 ptrs) with
            numFreeWordsInCurrent :=
              (nullPtrsFrom { st1 with
                mem := upd st1.mem st1.firstFreeWordInPage
                  (MAKE_HEADER ((bytes + WORDBYTES - 1) / WORDBYTES + 1) ptrs) }
                st1.firstFreeWordInPage 1 ptrs).numFreeWordsInCurrent -
                ((bytes + WORDBYTES - 1) / WORDBYTES + 1),
            firstFreeWordInPage :=
              (nullPtrsFrom { st1 with
                mem := upd st1.mem st1.firstFreeWordInPage
                  (MAKE_HEADER ((bytes + WORDBYTES - 1) / WORDBYTES + 1) ptrs) }
                st1.firstFreeWordInPage 1 ptrs).firstFreeWordInPage +
                4 * ((bytes + WORDBYTES - 1) / WORDBYTES + 1) } : GC)
        else
          { (nullPtrsFrom { st1 with
              mem := upd st1.mem st1.firstFreeWordInPage
                (MAKE_HEADER ((bytes + WORDBYTES - 1) / WORDBYTES + 1) ptrs) }
            st1.firstFreeWordInPage 1 ptrs) with
            numFreeWordsInCurrent := 0 }).space q = st1.space q := by
      intro q
      split <;> simp
    have hst3ff : (nullPtrsFrom { st1 with
        mem := upd st1.mem st1.firstFreeWordInPage
          (MAKE_HEADER ((bytes + WORDBYTES - 1) / WORDBYTES + 1) ptrs) }
        st1.firstFreeWordInPage 1 ptrs).firstFreeWordInPage =
        st1.firstFreeWordInPage := by
      simp
    have hnullout : ∀ a, (∀ j, 1 ≤ j → j ≤ ptrs → a ≠ st1.firstFreeWordInPage + 4 * j) →
        (nullPtrsFrom { st1 with
          mem := upd st1.mem st1.firstFreeWordInPage
            (MAKE_HEADER ((bytes + WORDBYTES - 1) / WORDBYTES + 1) ptrs) }
          st1.firstFreeWordInPage 1 ptrs).mem a =
        upd st1.mem st1.firstFreeWordInPage
          (MAKE_HEADER ((bytes + WORDBYTES - 1) / WORDBYTES + 1) ptrs) a := by
      intro a hout
      exact nullPtrsFrom_mem_out ptrs _ _ 1 a
        (fun j hj1 hj2 => hout j hj1 (by omega))
    constructor
    · -- the header word written at p - 4
      rw [hm4mem]
      rw [hst3ff]
      have harr : st1.firstFreeWordInPage + 4 - 4 = st1.firstFreeWordInPage := by
        omega
      rw [harr]
      rw [hnullout _ (fun j hj1 hj2 => by omega)]
      rw [upd_same]
      rw [hW]
    constructor
    · -- the nulled pointer slots
      intro i hi1 hi2
      rw [hm4mem]
      rw [hst3ff]
      have harr : st1.firstFreeWordInPage + 4 - 4 + 4 * i =
          st1.firstFreeWordInPage + 4 * i := by omega
      rw [harr]
      exact nullPtrsFrom_mem_in ptrs _ _ 1 i hi1 (by omega)
    constructor
    · -- every changed word lies on a next_space page
      intro a ha
      rw [hm4mem] at ha
      rw [hsp4]
      have hnum1 : 0 < st1.numFreeWordsInCurrent := by omega
      by_cases hc1 : a = st1.firstFreeWordInPage
      · subst hc1
        have := hinv1 0 hnum1
        simpa [hcn.2.1] using this
      · by_cases hc2 : ∃ j, 1 ≤ j ∧ j ≤ ptrs ∧ a = st1.firstFreeWordInPage + 4 * j
        · obtain ⟨j, hj1, hj2, rfl⟩ := hc2
          have hjlt : j < st1.numFreeWordsInCurrent := by
            have := hptrs
            rw [hW] at this
            omega
          have := hinv1 j hjlt
          rw [hcn.2.1] at this
          exact this
        · push_neg at hc2
          rw [hnullout _ (fun j hj1 hj2 heq => hc2 j hj1 hj2 heq)] at ha
          rw [upd_other _ _ _ _ hc1] at ha
          obtain ⟨hnz, rfl⟩ := hmem1 a ha
          have h0 := hinv 0 (by omega)
          simp only [Nat.mul_zero, Nat.add_zero] at h0
          have := hnextp _ h0
          exact this
    constructor
    · -- the new object's words lie on next_space pages
      intro k hk
      rw [hsp4]
      rw [hst3ff]
      have harr : st1.firstFreeWordInPage + 4 - 4 + 4 * k =
          st1.firstFreeWordInPage + 4 * k := by omega
      rw [harr]
      have hklt : k < st1.numFreeWordsInCurrent := by
        rw [hW] at hk
        omega
      have := hinv1 k hklt
      rw [hcn.2.1] at this
      exact this
    constructor
    · -- alignment of the returned pointer
      intro hdvd
      rw [hst3ff]
      have := hffdvd hdvd
      omega
    · -- the pointer is one word past the header
      omega

theorem HEADER_BYTES_eq (h : Nat) : HEADER_BYTES h = HEADER_WORDS h * 4 := rfl

theorem move_bytes_arith (w : Nat) (h2 : 2 ≤ w) (hlt : w < 65536) :
    (w * 4 + (2 ^ 32 - 4)) % 2 ^ 32 = 4 * w - 4 := by omega

theorem gwords_of_copy (w : Nat) (h2 : 2 ≤ w) : gwords (4 * w - 4) = w := by
  unfold gwords WORDBYTES
  omega

/-- What move does in its copy case (the final branch), during a
collection.  Shared analysis for the C1 and C3 claims. -/
theorem move_copy_char (f : Nat) (hints cells : List Nat) (st st2 : GC)
    (cp r : Nat)
    (hcp : cp ≠ 0)
    (hcp4 : 4 ≤ cp)
    (hlo : st.firstheappage ≤ GCP_to_PAGE cp)
    (hhi : GCP_to_PAGE cp ≤ st.lastheappage)
    (hne : st.next_space ≠ st.current_space)
    (hinv : INVnext st)
    (hw : 2 ≤ HEADER_WORDS (st.mem (cp - 4)))
    (hnf : ¬FORWARDED (st.mem (cp - 4)))
    (hsrc : ∀ i < HEADER_WORDS (st.mem (cp - 4)),
      st.space (GCP_to_PAGE (cp - 4 + 4 * i)) = st.current_space)
    (h : moveF (f + 1) hints cells st cp = .ok (st2, r)) :
    r ≠ cp ∧
    st2.next_space = st.next_space ∧ st2.current_space = st.current_space ∧
    st2.firstheappage = st.firstheappage ∧
    st2.lastheappage = st.lastheappage ∧
    st2.space (GCP_to_PAGE r) = st.next_space ∧
    (∀ q, st.space q = st.current_space → st2.space q = st.current_space) ∧
    (∀ i < HEADER_WORDS (st.mem (cp - 4)),
      st2.mem (r - 4 + 4 * i) = st.mem (cp - 4 + 4 * i)) ∧
    st2.mem (cp - 4) = r ∧
    (4 ∣ st.firstFreeWordInPage → r % 4 = 0) := by
  have hcpnext : st.space (GCP_to_PAGE cp) ≠ st.next_space := by
    have h1 := hsrc 1 (by omega)
    have heq : cp - 4 + 4 * 1 = cp := by omega
    rw [heq] at h1
    rw [h1]
    exact fun hx => hne hx.symm
  rw [show moveF (f + 1) hints cells st cp =
    (if cp = 0 then .ok (st, cp)
     else if ¬(st.firstheappage ≤ GCP_to_PAGE cp ∧
        GCP_to_PAGE cp ≤ st.lastheappage) then .err .oobSpace
     else if st.space (GCP_to_PAGE cp) = st.next_space then .ok (st, cp)
     else
      if FORWARDED (st.mem (cp - 4)) then .ok (st, st.mem (cp - 4))
      else
        match gcallocF (moveF f hints cells) f hints cells st
            ((HEADER_BYTES (st.mem (cp - 4)) + (2 ^ 32 - 4)) % 2 ^ 32) 0 with
        | .ok (st1, np) =>
          .ok ({ copyWords st1 (HEADER_WORDS (st.mem (cp - 4))) (cp - 4) (np - 4)
              with
              mem := upd (copyWords st1 (HEADER_WORDS (st.mem (cp - 4)))
                (cp - 4) (np - 4)).mem (cp - 4) np }, np)
        | .err e => .err e
        | .out => .out) from rfl] at h
  rw [if_neg hcp, if_neg (not_not_intro ⟨hlo, hhi⟩), if_neg hcpnext,
    if_neg hnf] at h
  have hwlt : HEADER_WORDS (st.mem (cp - 4)) < 65536 := HEADER_WORDS_lt _
  have hbytes : (HEADER_BYTES (st.mem (cp - 4)) + (2 ^ 32 - 4)) % 2 ^ 32 =
      4 * HEADER_WORDS (st.mem (cp - 4)) - 4 := by
    rw [HEADER_BYTES_eq]
    exact move_bytes_arith _ hw hwlt
  rw [hbytes] at h
  have hgw : gwords (4 * HEADER_WORDS (st.mem (cp - 4)) - 4) =
      HEADER_WORDS (st.mem (cp - 4)) := gwords_of_copy _ hw
  cases hg : gcallocF (moveF f hints cells) f hints cells st
      (4 * HEADER_WORDS (st.mem (cp - 4)) - 4) 0 with
  | err e => rw [hg] at h; exact absurd h (by simp)
  | out => rw [hg] at h; exact absurd h (by simp)
  | ok pr =>
    obtain ⟨st1, np⟩ := pr
    rw [hg] at h
    dsimp only at h
    simp only [Res.ok.injEq, Prod.mk.injEq] at h
    obtain ⟨h2, hr⟩ := h
    subst hr
    subst h2
    obtain ⟨⟨Gc, Gn, Gf, Gl⟩, Gcur, Ghdr, Gnull, Gwr, Gobj, Gal, Gp4⟩ :=
      gcallocF_ok_ne (moveF f hints cells) f hints cells st st1 np _ 0 hne hinv
        (by rw [hgw]; omega) hg
    rw [hgw] at Gobj
    have hsrc1 : ∀ i < HEADER_WORDS (st.mem (cp - 4)),
        st1.space (GCP_to_PAGE (cp - 4 + 4 * i)) = st.current_space :=
      fun i hi => Gcur _ (hsrc i hi)
    have hdisj : ∀ i j, i < HEADER_WORDS (st.mem (cp - 4)) →
        j < HEADER_WORDS (st.mem (cp - 4)) →
        cp - 4 + 4 * i ≠ np - 4 + 4 * j := by
      intro i j hi hj heq
      have e1 := hsrc1 i hi
      have e2 := Gobj j hj
      rw [heq] at e1
      rw [e1] at e2
      exact hne e2.symm
    have hsrcmem : ∀ i < HEADER_WORDS (st.mem (cp - 4)),
        st1.mem (cp - 4 + 4 * i) = st.mem (cp - 4 + 4 * i) := by
      intro i hi
      by_contra hne2
      have hx := Gwr _ hne2
      rw [hsrc1 i hi] at hx
      exact hne hx.symm
    have hpagenp : GCP_to_PAGE np = GCP_to_PAGE (np - 4 + 4 * 1) := by
      have hx : np - 4 + 4 * 1 = np := by omega
      rw [hx]
    have hpagecp : GCP_to_PAGE cp = GCP_to_PAGE (cp - 4 + 4 * 1) := by
      have hx : cp - 4 + 4 * 1 = cp := by omega
      rw [hx]
    have hnpnext : st1.space (GCP_to_PAGE np) = st.next_space := by
      rw [hpagenp]
      exact Gobj 1 (by omega)
    refine ⟨?_, by simp [Gn], by simp [Gc], by simp [Gf], by simp [Gl], ?_, ?_,
      ?_, ?_, ?_⟩
    · intro heq
      subst heq
      have := hsrc1 1 (by omega)
      rw [← hpagecp] at this
      rw [this] at hnpnext
      exact hne hnpnext.symm
    · simpa using hnpnext
    · intro q hq
      simpa using Gcur q hq
    · intro i hi
      show upd (copyWords st1 (HEADER_WORDS (st.mem (cp - 4))) (cp - 4)
        (np - 4)).mem (cp - 4) np (np - 4 + 4 * i) = _
      rw [upd_other _ _ _ _ (by
        have := hdisj 0 i (by omega) hi
        simpa using fun hx => this hx.symm)]
      rw [copyWords_mem_in _ _ _ _ hdisj i hi]
      exact hsrcmem i hi
    · show upd (copyWords st1 (HEADER_WORDS (st.mem (cp - 4))) (cp - 4)
        (np - 4)).mem (cp - 4) np (cp - 4) = np
      rw [upd_same]
    · intro hdvd
      exact Gal hdvd

theorem moveF_unfold (f : Nat) (hints cells : List Nat) (st : GC) (cp : Nat) :
    moveF (f + 1) hints cells st cp =
    (if cp = 0 then .ok (st, cp)
     else if ¬(st.firstheappage ≤ GCP_to_PAGE cp ∧
        GCP_to_PAGE cp ≤ st.lastheappage) then .err .oobSpace
     else if st.space (GCP_to_PAGE cp) = st.next_space then .ok (st, cp)
     else
      if FORWARDED (st.mem (cp - 4)) then .ok (st, st.mem (cp - 4))
      else
        match gcallocF (moveF f hints cells) f hints cells st
            ((HEADER_BYTES (st.mem (cp - 4)) + (2 ^ 32 - 4)) % 2 ^ 32) 0 with
        | .ok (st1, np) =>
          .ok ({ copyWords st1 (HEADER_WORDS (st.mem (cp - 4))) (cp - 4) (np - 4)
              with
              mem := upd (copyWords st1 (HEADER_WORDS (st.mem (cp - 4)))
                (cp - 4) (np - 4)).mem (cp - 4) np }, np)
        | .err e => .err e
        | .out => .out) := rfl

theorem moveF_null (f : Nat) (hints cells : List Nat) (st : GC) :
    moveF (f + 1) hints cells st 0 = .ok (st, 0) := by
  rw [moveF_unfold, if_pos rfl]

theorem moveF_nextpage (f : Nat) (hints cells : List Nat) (st : GC) (cp : Nat)
    (hcp : cp ≠ 0)
    (hlo : st.firstheappage ≤ GCP_to_PAGE cp)
    (hhi : GCP_to_PAGE cp ≤ st.lastheappage)
    (hnx : st.space (GCP_to_PAGE cp) = st.next_space) :
    moveF (f + 1) hints cells st cp = .ok (st, cp) := by
  rw [moveF_unfold, if_neg hcp, if_neg (not_not_intro ⟨hlo, hhi⟩), if_pos hnx]

theorem moveF_forwarded (f : Nat) (hints cells : List Nat) (st : GC) (cp : Nat)
    (hcp : cp ≠ 0)
    (hlo : st.firstheappage ≤ GCP_to_PAGE cp)
    (hhi : GCP_to_PAGE cp ≤ st.lastheappage)
    (hnx : st.space (GCP_to_PAGE cp) ≠ st.next_space)
    (hf : FORWARDED (st.mem (cp - 4))) :
    moveF (f + 1) hints cells st cp = .ok (st, st.mem (cp - 4)) := by
  rw [moveF_unfold, if_neg hcp, if_neg (not_not_intro ⟨hlo, hhi⟩), if_neg hnx,
    if_pos hf]

theorem moveF_oob (f : Nat) (hints cells : List Nat) (st : GC) (cp : Nat)
    (hcp : cp ≠ 0)
    (hout : ¬(st.firstheappage ≤ GCP_to_PAGE cp ∧
      GCP_to_PAGE cp ≤ st.lastheappage)) :
    moveF (f + 1) hints cells st cp = .err .oobSpace := by
  rw [moveF_unfold, if_neg hcp, if_pos hout]

theorem apScan_cn (k : Nat) : ∀ st n fr fi st', apScan st n fr fi k = .ok st' →
    st'.current_space = st.current_space ∧ st'.next_space = st.next_space ∧
    st'.firstheappage = st.firstheappage ∧
    st'.lastheappage = st.lastheappage ∧
    st'.numOfHeapPages = st.numOfHeapPages := by
  induction k with
  | zero => intro st n fr fi st' h; exact absurd h (by simp [apScan])
  | succ c ih =>
    intro st n fr fi st' h
    rw [show apScan st n fr fi (c + 1) =
      (if st.space st.firstFreePage ≠ st.current_space ∧
          st.space st.firstFreePage ≠ st.next_space then
        let firstIdx1 := if fr = 0 then st.firstFreePage else fi
        let freeRun1 := fr + 1
        if freeRun1 = n then .ok (apAssign st firstIdx1 n)
        else
          let st1 := { st with firstFreePage := next_page st st.firstFreePage }
          let freeRun2 :=
            if st1.firstFreePage = st1.firstheappage then 0 else freeRun1
          apScan st1 n freeRun2 firstIdx1 c
      else
        let st1 := { st with firstFreePage := next_page st st.firstFreePage }
        let freeRun2 := if st1.firstFreePage = st1.firstheappage then 0 else 0
        apScan st1 n freeRun2 fi c) from rfl] at h
    split at h
    · dsimp only at h
      split at h
      · simp only [Res.ok.injEq] at h
        subst h
        exact ⟨apAssign_current _ _ _, apAssign_next _ _ _, apAssign_fhp _ _ _,
          apAssign_lhp _ _ _, apAssign_nhp _ _ _⟩
      · exact ih { st with firstFreePage := next_page st st.firstFreePage }
          _ _ _ st' h
    · dsimp only at h
      exact ih { st with firstFreePage := next_page st st.firstFreePage }
        _ _ _ st' h

theorem apScan_no_oob (k : Nat) : ∀ st n fr fi,
    apScan st n fr fi k ≠ .err .oobSpace := by
  induction k with
  | zero => intro st n fr fi; simp [apScan]
  | succ c ih =>
    intro st n fr fi
    rw [show apScan st n fr fi (c + 1) =
      (if st.space st.firstFreePage ≠ st.current_space ∧
          st.space st.firstFreePage ≠ st.next_space then
        let firstIdx1 := if fr = 0 then st.firstFreePage else fi
        let freeRun1 := fr + 1
        if freeRun1 = n then .ok (apAssign st firstIdx1 n)
        else
          let st1 := { st with firstFreePage := next_page st st.firstFreePage }
          let freeRun2 :=
            if st1.firstFreePage = st1.firstheappage then 0 else freeRun1
          apScan st1 n freeRun2 firstIdx1 c
      else
        let st1 := { st with firstFreePage := next_page st st.firstFreePage }
        let freeRun2 := if st1.firstFreePage = st1.firstheappage then 0 else 0
        apScan st1 n freeRun2 fi c) from rfl]
    split
    · dsimp only
      split
      · simp
      · exact ih _ _ _ _
    · dsimp only
      exact ih _ _ _ _

theorem allocatepageF_no_oob (mv : GC → Nat → Res (GC × Nat)) (fuel : Nat)
    (hints cells : List Nat) (st : GC) (n : Nat)
    (hne : st.next_space ≠ st.current_space) :
    allocatepageF mv fuel hints cells st n ≠ .err .oobSpace := by
  unfold allocatepageF
  split
  · rw [collectF_ne _ _ _ _ _ hne]
    simp
  · exact apScan_no_oob _ _ _ _ _

theorem gcallocLoopF_no_oob (mv : GC → Nat → Res (GC × Nat)) (fuel : Nat) :
    ∀ (hints cells : List Nat) (st : GC) (words : Nat),
    st.next_space ≠ st.current_space →
    gcallocLoopF mv fuel hints cells st words ≠ .err .oobSpace := by
  induction fuel with
  | zero =>
    intro hints cells st words hne hx
    rw [gcallocLoopF.eq_def] at hx
    dsimp only at hx
    split at hx
    · simp at hx
    · simp at hx
  | succ f ih =>
    intro hints cells st words hne hx
    rw [gcallocLoopF.eq_def] at hx
    dsimp only at hx
    split at hx
    · simp at hx
    · split at hx
      · rename_i st2 heq
        have hne1 : ({ sealCurrent st with
            numFreeWordsInCurrent := 0 } : GC).next_space ≠
            ({ sealCurrent st with
              numFreeWordsInCurrent := 0 } : GC).current_space := by
          simpa using hne
        have hscan := allocatepageF_ok_ne mv f hints cells _ st2 _ hne1 heq
        obtain ⟨hc, hn, _, _, _⟩ := apScan_cn _ _ _ _ _ _ hscan
        have hne2 : st2.next_space ≠ st2.current_space := by
          rw [hc, hn]
          simpa using hne
        exact ih hints cells st2 words hne2 hx
      · rename_i e heq
        have hne1 : ({ sealCurrent st with
            numFreeWordsInCurrent := 0 } : GC).next_space ≠
            ({ sealCurrent st with
              numFreeWordsInCurrent := 0 } : GC).current_space := by
          simpa using hne
        have hnoob := allocatepageF_no_oob mv f hints cells
          { sealCurrent st with numFreeWordsInCurrent := 0 }
          ((words + PAGEWORDS - 1) / PAGEWORDS) hne1
        apply hnoob
        simp only [Res.err.injEq] at hx
        rw [heq, hx]
      · simp at hx

theorem gcallocF_no_oob (mv : GC → Nat → Res (GC × Nat)) (fuel : Nat)
    (hints cells : List Nat) (st : GC) (bytes ptrs : Nat)
    (hne : st.next_space ≠ st.current_space) :
    gcallocF mv fuel hints cells st bytes ptrs ≠ .err .oobSpace := by
  intro hx
  unfold gcallocF at hx
  dsimp only at hx
  split at hx
  · simp at hx
  · rename_i e heq
    simp only [Res.err.injEq] at hx
    apply gcallocLoopF_no_oob mv fuel hints cells st
      ((bytes + WORDBYTES - 1) / WORDBYTES + 1) hne
    rw [heq, hx]
  · simp at hx

theorem moveF_no_oob (fuel : Nat) (hints cells : List Nat) (st : GC) (cp : Nat)
    (hne : st.next_space ≠ st.current_space)
    (hin : cp = 0 ∨ (st.firstheappage ≤ GCP_to_PAGE cp ∧
      GCP_to_PAGE cp ≤ st.lastheappage)) :
    moveF fuel hints cells st cp ≠ .err .oobSpace := by
  intro hx
  match fuel with
  | 0 => simp [moveF] at hx
  | f + 1 =>
    rw [moveF_unfold] at hx
    rcases hin with rfl | ⟨hlo, hhi⟩
    · rw [if_pos rfl] at hx
      simp at hx
    · split at hx
      · simp at hx
      · split at hx
        · rename_i h0
          exact h0 ⟨hlo, hhi⟩
        · split at hx
          · simp at hx
          · split at hx
            · simp at hx
            · split at hx
              · simp at hx
              · rename_i e heq
                simp only [Res.err.injEq] at hx
                apply gcallocF_no_oob (moveF f hints cells) f hints cells st _ 0
                  hne
                rw [heq, hx]
              · simp at hx

theorem gcallocF_cn (mv : GC → Nat → Res (GC × Nat)) (fuel : Nat)
    (hints cells : List Nat) (st st4 : GC) (p bytes ptrs : Nat)
    (hne : st.next_space ≠ st.current_space)
    (h : gcallocF mv fuel hints cells st bytes ptrs = .ok (st4, p)) :
    st4.current_space = st.current_space ∧ st4.next_space = st.next_space ∧
    st4.firstheappage = st.firstheappage ∧
    st4.lastheappage = st.lastheappage ∧
    st4.numOfHeapPages = st.numOfHeapPages := by
  unfold gcallocF at h
  dsimp only at h
  split at h
  · rename_i st1 heq
    obtain ⟨_, hcase⟩ := gcallocLoopF_ok_ne mv fuel hints cells st st1
      ((bytes + WORDBYTES - 1) / WORDBYTES + 1) hne heq
    obtain ⟨hc, hn, hf, hl, hh⟩ := loopSt1_cn st st1 _ hcase
    simp only [Res.ok.injEq, Prod.mk.injEq] at h
    obtain ⟨h4, hp⟩ := h
    subst h4
    refine ⟨?_, ?_, ?_, ?_, ?_⟩ <;> (split <;> simp [hc, hn, hf, hl, hh])
  · simp at h
  · simp at h

theorem move_cn (fuel : Nat) (hints cells : List Nat) (st st' : GC)
    (cp np : Nat)
    (hne : st.next_space ≠ st.current_space)
    (h : moveF fuel hints cells st cp = .ok (st', np)) :
    st'.current_space = st.current_space ∧ st'.next_space = st.next_space ∧
    st'.firstheappage = st.firstheappage ∧
    st'.lastheappage = st.lastheappage ∧
    st'.numOfHeapPages = st.numOfHeapPages := by
  match fuel with
  | 0 => simp [moveF] at h
  | f + 1 =>
    rw [moveF_unfold] at h
    split at h
    · simp only [Res.ok.injEq, Prod.mk.injEq] at h
      obtain ⟨h1, _⟩ := h
      subst h1
      exact ⟨rfl, rfl, rfl, rfl, rfl⟩
    · split at h
      · simp at h
      · split at h
        · simp only [Res.ok.injEq, Prod.mk.injEq] at h
          obtain ⟨h1, _⟩ := h
          subst h1
          exact ⟨rfl, rfl, rfl, rfl, rfl⟩
        · split at h
          · simp only [Res.ok.injEq, Prod.mk.injEq] at h
            obtain ⟨h1, _⟩ := h
            subst h1
            exact ⟨rfl, rfl, rfl, rfl, rfl⟩
          · cases hg : gcallocF (moveF f hints cells) f hints cells st
                ((HEADER_BYTES (st.mem (cp - 4)) + (2 ^ 32 - 4)) % 2 ^ 32) 0 with
            | ok pr =>
              obtain ⟨st1, np1⟩ := pr
              rw [hg] at h
              dsimp only at h
              simp only [Res.ok.injEq, Prod.mk.injEq] at h
              obtain ⟨h1, _⟩ := h
              obtain ⟨hc, hn, hf, hl, hh⟩ := gcallocF_cn (moveF f hints cells)
                f hints cells st st1 np1 _ 0 hne hg
              subst h1
              refine ⟨?_, ?_, ?_, ?_, ?_⟩ <;> simp [hc, hn, hf, hl, hh]
            | err e =>
              rw [hg] at h
              simp at h
            | out =>
              rw [hg] at h
              simp at h

/-! ### Concrete states used by the witnesses -/

/-- An all-zero state. -/
def gc0 : GC :=
  { firstheappage := 0, lastheappage := 0, numOfHeapPages := 0,
    numFreeWordsInCurrent := 0, firstFreeWordInPage := 0,
    numOfAllocatedPages := 0, firstFreePage := 0,
    space := zf, pageQueue := zf, typeMapping := zf,
    queue_head := 0, queue_tail := 0, current_space := 0, next_space := 0,
    mem := zf }

/-- A state in mid-collection on a 10-page heap (pages 1..10): the space has
been flipped (current 1, next 2), page 2 still holds a current-space object
of 3 words (header at byte 1024: words=3, ptrs=1) whose pointer is
cp = 1028, plus an already-forwarded header at byte 1040 pointing to 516.
Reachable by gcinit(5120,...), an allocation on page 2, and entry of
collect with no hint naming page 2. -/
def wState : GC :=
  { firstheappage := 1, lastheappage := 10, numOfHeapPages := 10,
    numFreeWordsInCurrent := 0, firstFreeWordInPage := 0,
    numOfAllocatedPages := 0, firstFreePage := 1,
    space := upd zf 2 1, pageQueue := zf, typeMapping := zf,
    queue_head := 0, queue_tail := 0, current_space := 1, next_space := 2,
    mem := upd (upd (upd (upd zf 1024 (MAKE_HEADER 3 1)) 1028 0) 1032 7)
      1040 516 }

/-- State component of a successful move result. -/
def moveOkState (r : Res (GC × Nat)) (d : GC) : GC :=
  match r with
  | .ok (s, _) => s
  | _ => d

/-- Pointer component of a successful move result. -/
def moveOkPtr (r : Res (GC × Nat)) : Nat :=
  match r with
  | .ok (_, p) => p
  | _ => 0

/-- The state after moving the object at 1028 of wState. -/
def wOut : GC := moveOkState (move 11 [] [] wState 1028) gc0

/-- The pointer returned by moving the object at 1028 of wState. -/
def wPtr : Nat := moveOkPtr (move 11 [] [] wState 1028)

/-- C1: move(p) during a collection returns p for the null sentinel and for
pointers whose page is tagged next_space; returns the stored forwarding
pointer when the header's low bit is 0; and otherwise allocates a fresh
object of the same word count on a next_space page, copies header_words
words verbatim from the source (header included), overwrites the source
header with the destination pointer, and returns the destination pointer.
The last case is stated for an argument inside the heap with the object's
pages still current_space, under the collector's allocation-frontier
invariant. -/
theorem C1_move_spec :
    (∀ (f : Nat) (hints cells : List Nat) (st : GC),
      move (f + 1) hints cells st 0 = .ok (st, 0)) ∧
    (∀ (f : Nat) (hints cells : List Nat) (st : GC) (cp : Nat), cp ≠ 0 →
      st.firstheappage ≤ GCP_to_PAGE cp → GCP_to_PAGE cp ≤ st.lastheappage →
      st.space (GCP_to_PAGE cp) = st.next_space →
      move (f + 1) hints cells st cp = .ok (st, cp)) ∧
    (∀ (f : Nat) (hints cells : List Nat) (st : GC) (cp : Nat), cp ≠ 0 →
      st.firstheappage ≤ GCP_to_PAGE cp → GCP_to_PAGE cp ≤ st.lastheappage →
      st.space (GCP_to_PAGE cp) ≠ st.next_space →
      FORWARDED (st.mem (cp - 4)) →
      move (f + 1) hints cells st cp = .ok (st, st.mem (cp - 4))) ∧
    (∀ (f : Nat) (hints cells : List Nat) (st st2 : GC) (cp r : Nat),
      cp ≠ 0 → 4 ≤ cp →
      st.firstheappage ≤ GCP_to_PAGE cp → GCP_to_PAGE cp ≤ st.lastheappage →
      st.next_space ≠ st.current_space → INVnext st →
      2 ≤ HEADER_WORDS (st.mem (cp - 4)) →
      ¬FORWARDED (st.mem (cp - 4)) →
      (∀ i < HEADER_WORDS (st.mem (cp - 4)),
        st.space (GCP_to_PAGE (cp - 4 + 4 * i)) = st.current_space) →
      move (f + 1) hints cells st cp = .ok (st2, r) →
      r ≠ cp ∧ st2.next_space = st.next_space ∧
      st2.current_space = st.current_space ∧
      st2.space (GCP_to_PAGE r) = st.next_space ∧
      (∀ i < HEADER_WORDS (st.mem (cp - 4)),
        st2.mem (r - 4 + 4 * i) = st.mem (cp - 4 + 4 * i)) ∧
      st2.mem (cp - 4) = r) := by
  refine ⟨?_, ?_, ?_, ?_⟩
  · intro f hints cells st
    exact moveF_null f hints cells st
  · intro f hints cells st cp h1 h2 h3 h4
    exact moveF_nextpage f hints cells st cp h1 h2 h3 h4
  · intro f hints cells st cp h1 h2 h3 h4 h5
    exact moveF_forwarded f hints cells st cp h1 h2 h3 h4 h5
  · intro f hints cells st st2 cp r h1 h2 h3 h4 h5 h6 h7 h8 h9 h10
    obtain ⟨c1, c2, c3, _, _, c6, _, c8, c9, _⟩ :=
      move_copy_char f hints cells st st2 cp r h1 h2 h3 h4 h5 h6 h7 h8 h9 h10
    exact ⟨c1, c2, c3, c6, c8, c9⟩

/-- Witness for C1: the copy case run on a concrete mid-collection state. -/
theorem C1_move_spec_witness :
    move 11 [] [] wState 1028 = .ok (wOut, wPtr) ∧
    (wPtr ≠ 1028 ∧ wOut.next_space = wState.next_space ∧
      wOut.current_space = wState.current_space ∧
      wOut.space (GCP_to_PAGE wPtr) = wState.next_space ∧
      (∀ i < HEADER_WORDS (wState.mem (1028 - 4)),
        wOut.mem (wPtr - 4 + 4 * i) = wState.mem (1028 - 4 + 4 * i)) ∧
      wOut.mem (1028 - 4) = wPtr) :=
  ⟨rfl, C1_move_spec.2.2.2 10 [] [] wState wOut 1028 wPtr (by decide)
    (by decide) (by decide) (by decide) (by decide) (by decide) (by decide)
    (by decide) (by decide) rfl⟩

/-- C3: once an object's header has been overwritten with a forwarding
pointer, a subsequent move on a pointer to it returns the stored forwarding
pointer with no allocation or copy (the state is unchanged); consequently
move applied twice to the same pointer during one collection gives the same
result as applied once, so no source object is copied twice. -/
theorem C3_at_most_once :
    (∀ (f : Nat) (hints cells : List Nat) (st : GC) (cp : Nat), cp ≠ 0 →
      st.firstheappage ≤ GCP_to_PAGE cp → GCP_to_PAGE cp ≤ st.lastheappage →
      st.space (GCP_to_PAGE cp) ≠ st.next_space →
      FORWARDED (st.mem (cp - 4)) →
      move (f + 1) hints cells st cp = .ok (st, st.mem (cp - 4))) ∧
    (∀ (f g : Nat) (hints cells : List Nat) (st st2 : GC) (cp r : Nat),
      cp ≠ 0 → 4 ≤ cp →
      st.firstheappage ≤ GCP_to_PAGE cp → GCP_to_PAGE cp ≤ st.lastheappage →
      st.next_space ≠ st.current_space → INVnext st →
      4 ∣ st.firstFreeWordInPage →
      2 ≤ HEADER_WORDS (st.mem (cp - 4)) →
      (∀ i < HEADER_WORDS (st.mem (cp - 4)),
        st.space (GCP_to_PAGE (cp - 4 + 4 * i)) = st.current_space) →
      move (f + 1) hints cells st cp = .ok (st2, r) →
      move (g + 1) hints cells st2 cp = .ok (st2, r)) := by
  constructor
  · intro f hints cells st cp h1 h2 h3 h4 h5
    exact moveF_forwarded f hints cells st cp h1 h2 h3 h4 h5
  · intro f g hints cells st st2 cp r h1 h2 h3 h4 h5 h6 h7 h8 h9 h10
    have hcpcur : st.space (GCP_to_PAGE cp) = st.current_space := by
      have hi := h9 1 (by omega)
      have hx : cp - 4 + 4 * 1 = cp := by omega
      rw [hx] at hi
      exact hi
    have hcpne : st.space (GCP_to_PAGE cp) ≠ st.next_space := by
      rw [hcpcur]
      exact fun hx => h5 hx.symm
    by_cases hfwd : FORWARDED (st.mem (cp - 4))
    · have h11 := moveF_forwarded f hints cells st cp h1 h3 h4 hcpne hfwd
      have h10m : moveF (f + 1) hints cells st cp = .ok (st2, r) := h10
      rw [h10m] at h11
      simp only [Res.ok.injEq, Prod.mk.injEq] at h11
      obtain ⟨hst, hr⟩ := h11
      subst hst
      rw [hr]
      exact moveF_forwarded g hints cells st2 cp h1 h3 h4 hcpne hfwd
    · obtain ⟨c1, c2, c3, c4, c5, c6, c7, c8, c9, c10⟩ :=
        move_copy_char f hints cells st st2 cp r h1 h2 h3 h4 h5 h6 h8 hfwd h9
          h10
      have hfw2 : FORWARDED (st2.mem (cp - 4)) := by
        rw [c9, FORWARDED_iff]
        have := c10 h7
        omega
      have h11 := moveF_forwarded g hints cells st2 cp h1 (by rw [c4]; exact h3)
        (by rw [c5]; exact h4)
        (by
          rw [c7 _ hcpcur, c2]
          rw [hcpcur] at hcpne
          exact hcpne) hfw2
      show moveF (g + 1) hints cells st2 cp = Res.ok (st2, r)
      rw [h11, c9]

/-- Witness for C3: moving the same concrete pointer twice. -/
theorem C3_at_most_once_witness :
    move 11 [] [] wState 1028 = .ok (wOut, wPtr) ∧
    move 6 [] [] wOut 1028 = .ok (wOut, wPtr) :=
  ⟨rfl, C3_at_most_once.2 10 5 [] [] wState wOut 1028 wPtr (by decide)
    (by decide) (by decide) (by decide) (by decide) (by decide) (by decide)
    (by decide) (by decide) rfl⟩

/-- C10: move's single page-directory read (space[GCP_to_PAGE cp], line 133
of main.c) is unguarded: a non-null argument outside the heap page range
makes the read escape the directory (modelled as the oobSpace error), and
under the precondition that the argument is null or points into the heap
page range, no space-tag access made by move is out of bounds. -/
theorem C10_move_space_bounds :
    (∀ (f : Nat) (hints cells : List Nat) (st : GC) (cp : Nat), cp ≠ 0 →
      ¬(st.firstheappage ≤ GCP_to_PAGE cp ∧ GCP_to_PAGE cp ≤ st.lastheappage) →
      move (f + 1) hints cells st cp = .err .oobSpace) ∧
    (∀ (fuel : Nat) (hints cells : List Nat) (st : GC) (cp : Nat),
      st.next_space ≠ st.current_space →
      (cp = 0 ∨ (st.firstheappage ≤ GCP_to_PAGE cp ∧
        GCP_to_PAGE cp ≤ st.lastheappage)) →
      move fuel hints cells st cp ≠ .err .oobSpace) := by
  constructor
  · intro f hints cells st cp h1 h2
    exact moveF_oob f hints cells st cp h1 h2
  · intro fuel hints cells st cp h1 h2
    exact moveF_no_oob fuel hints cells st cp h1 h2

/-- Witness for C10: a pointer into page 11 of a 10-page heap escapes the
directory; an in-range pointer never produces the out-of-bounds error. -/
theorem C10_move_space_bounds_witness :
    move 1 [] [] wState 6000 = .err .oobSpace ∧
    move 7 [] [] wState 1028 ≠ .err .oobSpace :=
  ⟨C10_move_space_bounds.1 0 [] [] wState 6000 (by decide) (by decide),
    C10_move_space_bounds.2 7 [] [] wState 1028 (by decide)
      (Or.inr (by decide))⟩

/-- C7: when the watermark allocatedPages + N >= heapPages/2 is reached,
allocatepage invokes the collector and returns without assigning pages:
its result state is exactly the collector's result state. -/
theorem C7_watermark (fuel : Nat) (hints cells : List Nat) (st : GC)
    (numOfPages : Nat)
    (hwm : st.numOfAllocatedPages + numOfPages ≥ st.numOfHeapPages / 2) :
    allocatepage fuel hints cells st numOfPages = collect fuel hints cells st := by
  unfold allocatepage allocatepageF
  rw [if_pos hwm]
  rfl

/-- Witness for C7: 3 allocated pages plus a 2-page request on a 10-page
heap crosses the watermark, so the call collects. -/
theorem C7_watermark_witness :
    ({ wState with numOfAllocatedPages := 3 } : GC).numOfAllocatedPages + 2 ≥
      ({ wState with numOfAllocatedPages := 3 } : GC).numOfHeapPages / 2 ∧
    allocatepage 9 [] [] { wState with numOfAllocatedPages := 3 } 2 =
      collect 9 [] [] { wState with numOfAllocatedPages := 3 } :=
  ⟨by decide, C7_watermark 9 [] [] { wState with numOfAllocatedPages := 3 } 2
    (by decide)⟩

theorem promoteWalk_char : ∀ (page : Nat) (st : GC) (obj : Nat),
    obj ≤ page →
    st.typeMapping obj ≠ CONTINUED →
    (∀ q, obj < q → q ≤ page → st.typeMapping q = CONTINUED) →
    promoteWalk st page =
      ({ st with
          numOfAllocatedPages := st.numOfAllocatedPages + (page - obj),
          space := fun q =>
            if obj < q ∧ q ≤ page then st.next_space else st.space q }, obj) := by
  intro page
  induction page with
  | zero =>
    intro st obj hle htype hcont
    have hobj : obj = 0 := by omega
    subst hobj
    show (st, 0) = _
    have hsp : (fun q => if (0:Nat) < q ∧ q ≤ 0 then st.next_space
        else st.space q) = st.space := by
      funext q
      rw [if_neg (by omega)]
    rw [hsp]
    norm_num
  | succ p ih =>
    intro st obj hle htype hcont
    by_cases hobj : obj = p + 1
    · subst hobj
      show (if st.typeMapping (p + 1) = CONTINUED then
        promoteWalk
          { st with
              numOfAllocatedPages := st.numOfAllocatedPages + 1,
              space := upd st.space (p + 1) st.next_space } p
        else (st, p + 1)) = _
      rw [if_neg htype]
      have hsp : (fun q => if p + 1 < q ∧ q ≤ p + 1 then st.next_space
          else st.space q) = st.space := by
        funext q
        rw [if_neg (by omega)]
      rw [hsp]
      norm_num
    · have hlt : obj ≤ p := by omega
      have hcontp1 : st.typeMapping (p + 1) = CONTINUED :=
        hcont (p + 1) (by omega) (Nat.le_refl _)
      show (if st.typeMapping (p + 1) = CONTINUED then
        promoteWalk
          { st with
              numOfAllocatedPages := st.numOfAllocatedPages + 1,
              space := upd st.space (p + 1) st.next_space } p
        else (st, p + 1)) = _
      rw [if_pos hcontp1]
      rw [ih { st with
          numOfAllocatedPages := st.numOfAllocatedPages + 1,
          space := upd st.space (p + 1) st.next_space } obj hlt htype
        (fun q hq1 hq2 => hcont q hq1 (by omega))]
      dsimp only
      have hsp : (fun q => if obj < q ∧ q ≤ p then st.next_space
          else upd st.space (p + 1) st.next_space q) =
          (fun q => if obj < q ∧ q ≤ p + 1 then st.next_space
            else st.space q) := by
        funext q
        simp only [upd]
        split_ifs <;> first | rfl | omega
      have hal : st.numOfAllocatedPages + 1 + (p - obj) =
          st.numOfAllocatedPages + (p + 1 - obj) := by omega
      rw [hsp, hal]

/-- C4: a stack hint naming an in-range current_space page of type
Continued makes promote_page walk backwards, retagging and counting every
traversed page until the owning Object page, which is retagged, counted and
enqueued — pinning the whole run; a hint outside the heap range or to a
page not tagged current_space changes nothing.  The hypotheses spell out
the run shape: obj is the owning page (not Continued) and every page
strictly between obj and the hinted page is Continued. -/
theorem C4_promote_page :
    (∀ (st : GC) (page obj : Nat),
      st.firstheappage ≤ page → page ≤ st.lastheappage →
      st.space page = st.current_space →
      obj ≤ page → st.typeMapping obj ≠ CONTINUED →
      (∀ q, obj < q → q ≤ page → st.typeMapping q = CONTINUED) →
      promote_page st page =
        (queue
          { st with
              numOfAllocatedPages :=
                st.numOfAllocatedPages + (page - obj) + 1,
              space := fun q =>
                if obj ≤ q ∧ q ≤ page then st.next_space else st.space q }
          obj, [obj])) ∧
    (∀ (st : GC) (page : Nat),
      ¬(st.firstheappage ≤ page ∧ page ≤ st.lastheappage ∧
        st.space page = st.current_space) →
      promote_page st page = (st, [])) := by
  constructor
  · intro st page obj h1 h2 h3 hle htype hcont
    have hw := promoteWalk_char page st obj hle htype hcont
    unfold promote_page
    rw [if_pos ⟨h1, h2, h3⟩, hw]
    dsimp only
    have hsp : upd (fun q => if obj < q ∧ q ≤ page then st.next_space
        else st.space q) obj st.next_space =
        (fun q => if obj ≤ q ∧ q ≤ page then st.next_space
          else st.space q) := by
      funext q
      simp only [upd]
      split_ifs <;> first | rfl | omega
    rw [hsp]
  · intro st page hguard
    unfold promote_page
    rw [if_neg hguard]

/-- The heap state used by the C4 and C5 witnesses: a three-page object on
pages 3..5 (3 Object, 4 and 5 Continued), all tagged current_space 1,
mid-collection with next_space 2. -/
def w4State : GC :=
  { firstheappage := 1, lastheappage := 10, numOfHeapPages := 10,
    numFreeWordsInCurrent := 0, firstFreeWordInPage := 0,
    numOfAllocatedPages := 0, firstFreePage := 1,
    space := upd (upd (upd zf 3 1) 4 1) 5 1,
    pageQueue := zf,
    typeMapping := upd (upd zf 4 1) 5 1,
    queue_head := 0, queue_tail := 0, current_space := 1, next_space := 2,
    mem := zf }

/-- Witness for C4: a hint into Continued page 5 pins pages 3..5 and
enqueues Object page 3; a hint out of range is a no-op. -/
theorem C4_promote_page_witness :
    promote_page w4State 5 =
      (queue
        { w4State with
            numOfAllocatedPages := w4State.numOfAllocatedPages + (5 - 3) + 1,
            space := fun q =>
              if 3 ≤ q ∧ q ≤ 5 then w4State.next_space else w4State.space q }
        3, [3]) ∧
    promote_page w4State 11 = (w4State, []) :=
  ⟨C4_promote_page.1 w4State 5 3 (by decide) (by decide) (by decide)
    (by decide) (by decide) (by
      intro q hq1 hq2
      have : q = 4 ∨ q = 5 := by omega
      rcases this with rfl | rfl <;> decide),
    C4_promote_page.2 w4State 11 (by decide)⟩

theorem promoteWalk_stop (st : GC) (page : Nat)
    (h : st.typeMapping page ≠ CONTINUED) :
    promoteWalk st page = (st, page) := by
  cases page with
  | zero => rfl
  | succ p =>
    show (if st.typeMapping (p + 1) = CONTINUED then _ else (st, p + 1)) = _
    rw [if_neg h]

theorem promote_page_object (st : GC) (page : Nat)
    (h1 : st.firstheappage ≤ page) (h2 : page ≤ st.lastheappage)
    (h3 : st.space page = st.current_space)
    (ht : st.typeMapping page ≠ CONTINUED) :
    promote_page st page =
      (queue
        { st with
            space := upd st.space page st.next_space,
            numOfAllocatedPages := st.numOfAllocatedPages + 1 } page,
        [page]) := by
  unfold promote_page
  rw [if_pos ⟨h1, h2, h3⟩, promoteWalk_stop st page ht]

theorem scanObj_trace (hints : List Nat) : ∀ (st : GC),
    st.next_space ≠ st.current_space →
    (∀ w ∈ hints, st.firstheappage ≤ GCP_to_PAGE w →
      GCP_to_PAGE w ≤ st.lastheappage →
      st.typeMapping (GCP_to_PAGE w) ≠ CONTINUED) →
    (scanStack st hints).2.Nodup ∧
    (∀ p, st.space p = st.next_space → p ∉ (scanStack st hints).2) := by
  induction hints with
  | nil =>
    intro st _ _
    exact ⟨List.nodup_nil, fun p _ => List.not_mem_nil p⟩
  | cons w ws ih =>
    intro st hne htypes
    by_cases hguard : st.firstheappage ≤ GCP_to_PAGE w ∧
        GCP_to_PAGE w ≤ st.lastheappage ∧
        st.space (GCP_to_PAGE w) = st.current_space
    · obtain ⟨hg1, hg2, hg3⟩ := hguard
      have htw : st.typeMapping (GCP_to_PAGE w) ≠ CONTINUED :=
        htypes w (List.mem_cons_self w ws) hg1 hg2
      have hpp := promote_page_object st (GCP_to_PAGE w) hg1 hg2 hg3 htw
      have hscan : scanStack st (w :: ws) =
        ((scanStack (promote_page st (GCP_to_PAGE w)).1 ws).1,
          (promote_page st (GCP_to_PAGE w)).2 ++
            (scanStack (promote_page st (GCP_to_PAGE w)).1 ws).2) := rfl
      rw [hscan, hpp]
      dsimp only
      set st1 := queue
        { st with
            space := upd st.space (GCP_to_PAGE w) st.next_space,
            numOfAllocatedPages := st.numOfAllocatedPages + 1 }
        (GCP_to_PAGE w) with hst1
      have hsp1 : ∀ p, st1.space p =
          upd st.space (GCP_to_PAGE w) st.next_space p := by
        intro p
        rw [hst1, queue_space]
      have hne1 : st1.next_space ≠ st1.current_space := by
        rw [hst1, queue_next, queue_current]
        exact hne
      have htypes1 : ∀ v ∈ ws, st1.firstheappage ≤ GCP_to_PAGE v →
          GCP_to_PAGE v ≤ st1.lastheappage →
          st1.typeMapping (GCP_to_PAGE v) ≠ CONTINUED := by
        intro v hv
        rw [hst1, queue_fhp, queue_lhp, queue_type]
        exact htypes v (List.mem_cons_of_mem w hv)
      obtain ⟨ihA, ihB⟩ := ih st1 hne1 htypes1
      constructor
      · rw [List.cons_append, List.nil_append, List.nodup_cons]
        refine ⟨?_, ihA⟩
        apply ihB
        rw [hsp1, upd_same, hst1, queue_next]
      · intro p hp
        rw [List.cons_append, List.nil_append, List.mem_cons]
        rintro (rfl | hmem)
        · rw [hg3] at hp
          exact hne (hp.symm)
        · refine ihB p ?_ hmem
          rw [hsp1, upd_other _ _ _ _ ?_, hst1, queue_next]
          · exact hp
          · intro heq
            subst heq
            rw [hg3] at hp
            exact hne hp.symm
    · have hpp : promote_page st (GCP_to_PAGE w) = (st, []) := by
        unfold promote_page
        rw [if_neg (by
          intro hx
          exact hguard ⟨hx.1, hx.2.1, hx.2.2⟩)]
      have hscan : scanStack st (w :: ws) =
        ((scanStack (promote_page st (GCP_to_PAGE w)).1 ws).1,
          (promote_page st (GCP_to_PAGE w)).2 ++
            (scanStack (promote_page st (GCP_to_PAGE w)).1 ws).2) := rfl
      rw [hscan, hpp]
      dsimp only
      obtain ⟨ihA, ihB⟩ := ih st hne
        (fun v hv => htypes v (List.mem_cons_of_mem w hv))
      exact ⟨by simpa using ihA, fun p hp => by simpa using ihB p hp⟩

/-- C5, corrected: the conservative phase does not in general enqueue each
page at most once.  A second hint into a later Continued page of a
partially promoted run passes the current_space guard and re-enqueues the
run's Object page (see the counterexample).  For hint sequences in which
every in-range hint names a non-Continued page, each page is enqueued at
most once: the enqueue trace of the conservative phase is duplicate-free,
because a page is enqueued only on its current_space-to-next_space
transition. -/
theorem C5_enqueue_once (hints : List Nat) (st : GC)
    (hne : st.next_space ≠ st.current_space)
    (htypes : ∀ w ∈ hints, st.firstheappage ≤ GCP_to_PAGE w →
      GCP_to_PAGE w ≤ st.lastheappage →
      st.typeMapping (GCP_to_PAGE w) ≠ CONTINUED) :
    (scanStack st hints).2.Nodup :=
  (scanObj_trace hints st hne htypes).1

/-- Counterexample for C5 as stated: on the three-page object of w4State
(pages 3 Object, 4 and 5 Continued, all current_space), the hint sequence
naming page 4 and then page 5 enqueues Object page 3 twice: the first hint
promotes pages 3 and 4, the second still passes the guard on the
untouched page 5 and walks down to 3 again. -/
theorem C5_enqueue_twice_cex :
    (scanStack w4State [2052, 2568]).2 = [3, 3] ∧
    ¬(scanStack w4State [2052, 2568]).2.Nodup := by
  constructor
  · decide
  · decide

/-- Witness for C5: an Object-page-only hint sequence on the same state
yields a duplicate-free enqueue trace. -/
theorem C5_enqueue_once_witness :
    (scanStack w4State [1540, 3076]).2.Nodup :=
  C5_enqueue_once [1540, 3076] w4State (by decide) (by
    intro w hw
    simp only [List.mem_cons, List.not_mem_nil, or_false] at hw
    rcases hw with rfl | rfl <;> decide)

theorem promoteWalk_cn (page : Nat) : ∀ (st : GC),
    (promoteWalk st page).1.current_space = st.current_space ∧
    (promoteWalk st page).1.next_space = st.next_space := by
  induction page with
  | zero => intro st; exact ⟨rfl, rfl⟩
  | succ p ih =>
    intro st
    by_cases h : st.typeMapping (p + 1) = CONTINUED
    · rw [promoteWalk, if_pos h]
      exact ih _
    · rw [promoteWalk, if_neg h]
      exact ⟨rfl, rfl⟩

theorem promote_page_cn (st : GC) (page : Nat) :
    (promote_page st page).1.current_space = st.current_space ∧
    (promote_page st page).1.next_space = st.next_space := by
  unfold promote_page
  split
  · dsimp only
    constructor
    · rw [queue_current]
      exact (promoteWalk_cn page st).1
    · rw [queue_next]
      exact (promoteWalk_cn page st).2
  · exact ⟨rfl, rfl⟩

theorem scanStack_cn (hints : List Nat) : ∀ (st : GC),
    (scanStack st hints).1.current_space = st.current_space ∧
    (scanStack st hints).1.next_space = st.next_space := by
  induction hints with
  | nil => intro st; exact ⟨rfl, rfl⟩
  | cons w ws ih =>
    intro st
    have h1 := promote_page_cn st (GCP_to_PAGE w)
    have h2 := ih (promote_page st (GCP_to_PAGE w)).1
    exact ⟨h2.1.trans h1.1, h2.2.trans h1.2⟩

theorem moveCells_cn (fuel : Nat) (hints cells : List Nat) (l : List Nat) :
    ∀ (st st' : GC), st.next_space ≠ st.current_space →
    moveCells (moveF fuel hints cells) l st = .ok st' →
    st'.current_space = st.current_space ∧ st'.next_space = st.next_space := by
  induction l with
  | nil =>
    intro st st' _ h
    rw [moveCells] at h
    simp only [Res.ok.injEq] at h
    subst h
    exact ⟨rfl, rfl⟩
  | cons c cs ih =>
    intro st st' hne h
    rw [moveCells] at h
    cases hm : moveF fuel hints cells st (st.mem c) with
    | ok pr =>
      obtain ⟨st1, np⟩ := pr
      rw [hm] at h
      dsimp only at h
      have hc := move_cn fuel hints cells st st1 (st.mem c) np hne hm
      have hne1 : ({ st1 with mem := upd st1.mem c np } : GC).next_space ≠
          ({ st1 with mem := upd st1.mem c np } : GC).current_space := by
        show st1.next_space ≠ st1.current_space
        rw [hc.2.1, hc.1]
        exact hne
      obtain ⟨ha, hb⟩ := ih { st1 with mem := upd st1.mem c np } st' hne1 h
      exact ⟨ha.trans hc.1, hb.trans hc.2.1⟩
    | err e =>
      rw [hm] at h
      exact absurd h (by simp)
    | out =>
      rw [hm] at h
      exact absurd h (by simp)

theorem sweepPtrs_cn (fuel : Nat) (hints cells : List Nat) (cnt : Nat) :
    ∀ (pp : Nat) (st st' : GC), st.next_space ≠ st.current_space →
    sweepPtrs (moveF fuel hints cells) cnt pp st = .ok st' →
    st'.current_space = st.current_space ∧ st'.next_space = st.next_space := by
  induction cnt with
  | zero =>
    intro pp st st' _ h
    rw [sweepPtrs] at h
    simp only [Res.ok.injEq] at h
    subst h
    exact ⟨rfl, rfl⟩
  | succ n ih =>
    intro pp st st' hne h
    rw [sweepPtrs] at h
    cases hm : moveF fuel hints cells st (st.mem pp) with
    | ok pr =>
      obtain ⟨st1, np⟩ := pr
      rw [hm] at h
      dsimp only at h
      have hc := move_cn fuel hints cells st st1 (st.mem pp) np hne hm
      have hne1 : ({ st1 with mem := upd st1.mem pp np } : GC).next_space ≠
          ({ st1 with mem := upd st1.mem pp np } : GC).current_space := by
        show st1.next_space ≠ st1.current_space
        rw [hc.2.1, hc.1]
        exact hne
      obtain ⟨ha, hb⟩ := ih (pp + 4) { st1 with mem := upd st1.mem pp np } st' hne1 h
      exact ⟨ha.trans hc.1, hb.trans hc.2.1⟩
    | err e =>
      rw [hm] at h
      exact absurd h (by simp)
    | out =>
      rw [hm] at h
      exact absurd h (by simp)

theorem sweepPageF_cn (fu : Nat) (hints cells : List Nat) (fuel : Nat) :
    ∀ (st : GC) (cp : Nat) (st' : GC), st.next_space ≠ st.current_space →
    sweepPageF (moveF fu hints cells) fuel st cp = .ok st' →
    st'.current_space = st.current_space ∧ st'.next_space = st.next_space := by
  induction fuel with
  | zero =>
    intro st cp st' _ h
    rw [sweepPageF.eq_def] at h
    dsimp only at h
    split at h
    · exact absurd h (by simp)
    · simp only [Res.ok.injEq] at h
      subst h
      exact ⟨rfl, rfl⟩
  | succ f ih =>
    intro st cp st' hne h
    rw [sweepPageF.eq_def] at h
    dsimp only at h
    split at h
    · cases hp : sweepPtrs (moveF fu hints cells) (HEADER_PTRS (st.mem cp))
          (cp + 4) st with
      | ok st1 =>
        rw [hp] at h
        dsimp only at h
        have hc := sweepPtrs_cn fu hints cells _ (cp + 4) st st1 hne hp
        have hne1 : st1.next_space ≠ st1.current_space := by
          rw [hc.2, hc.1]
          exact hne
        obtain ⟨ha, hb⟩ := ih st1 _ st' hne1 h
        exact ⟨ha.trans hc.1, hb.trans hc.2⟩
      | err e =>
        rw [hp] at h
        exact absurd h (by simp)
      | out =>
        rw [hp] at h
        exact absurd h (by simp)
    · simp only [Res.ok.injEq] at h
      subst h
      exact ⟨rfl, rfl⟩

theorem sweepQueueF_cn (fu : Nat) (hints cells : List Nat) (fuel : Nat) :
    ∀ (st st' : GC), st.next_space ≠ st.current_space →
    sweepQueueF (moveF fu hints cells) fuel st = .ok st' →
    st'.current_space = st.current_space ∧ st'.next_space = st.next_space := by
  induction fuel with
  | zero =>
    intro st st' _ h
    rw [sweepQueueF.eq_def] at h
    dsimp only at h
    split at h
    · simp only [Res.ok.injEq] at h
      subst h
      exact ⟨rfl, rfl⟩
    · exact absurd h (by simp)
  | succ f ih =>
    intro st st' hne h
    rw [sweepQueueF.eq_def] at h
    dsimp only at h
    split at h
    · simp only [Res.ok.injEq] at h
      subst h
      exact ⟨rfl, rfl⟩
    · cases hp : sweepPageF (moveF fu hints cells) f st
          (PAGE_to_GCP st.queue_head) with
      | ok st1 =>
        rw [hp] at h
        dsimp only at h
        have hc := sweepPageF_cn fu hints cells f st _ st1 hne hp
        have hne1 : ({ st1 with
            queue_head := st1.pageQueue st1.queue_head } : GC).next_space ≠
            ({ st1 with
              queue_head := st1.pageQueue st1.queue_head } : GC).current_space := by
          show st1.next_space ≠ st1.current_space
          rw [hc.2, hc.1]
          exact hne
        obtain ⟨ha, hb⟩ := ih { st1 with
          queue_head := st1.pageQueue st1.queue_head } st' hne1 h
        exact ⟨ha.trans hc.1, hb.trans hc.2⟩
      | err e =>
        rw [hp] at h
        exact absurd h (by simp)
      | out =>
        rw [hp] at h
        exact absurd h (by simp)

theorem succ_mask15_ne (c : Nat) : (c + 1) &&& 0o77777 ≠ c := by
  rw [mask15_eq_mod]
  omega

/-- C6, corrected: on every entry to collect with current_space = c (and
no collection already in progress), the new next_space is exactly
(c + 1) mod 2^15, and at a successful return both space fields equal that
value.  The advance is a bare mask: the code never skips the value 0, so
tag 0 — which also marks free pages — is reached after 2^15 - 1
collections (see the counterexample). -/
theorem C6_next_advance (fuel : Nat) (hints cells : List Nat) (st st' : GC)
    (h : collect fuel hints cells st = .ok st') :
    st'.current_space = (st.current_space + 1) % 32768 ∧
    st'.next_space = (st.current_space + 1) % 32768 := by
  unfold collect collectF at h
  split at h
  · exact absurd h (by simp)
  · dsimp only at h
    rw [← mask15_eq_mod]
    set c := st.current_space with hc
    set st2 : GC :=
      { sealCurrent st with
          next_space := ((sealCurrent st).current_space + 1) &&& 0o77777,
          numOfAllocatedPages := 0,
          queue_head := 0 } with hst2
    have hcur2 : st2.current_space = c := by
      rw [hst2]
      show (sealCurrent st).current_space = c
      rw [sealCurrent_current]
    have hnext2 : st2.next_space = (c + 1) &&& 0o77777 := by
      rw [hst2]
      show ((sealCurrent st).current_space + 1) &&& 0o77777 = _
      rw [sealCurrent_current]
    set st3 := (scanStack st2 hints).1 with hst3
    have hcn3 := scanStack_cn hints st2
    have hne3 : st3.next_space ≠ st3.current_space := by
      rw [hst3, hcn3.1, hcn3.2, hcur2, hnext2]
      exact succ_mask15_ne c
    cases hmc : moveCells (moveF fuel hints cells) cells.reverse st3 with
    | ok st4 =>
      rw [hmc] at h
      dsimp only at h
      have hcn4 := moveCells_cn fuel hints cells cells.reverse st3 st4 hne3 hmc
      have hne4 : st4.next_space ≠ st4.current_space := by
        rw [hcn4.1, hcn4.2]
        exact hne3
      cases hsw : sweepQueueF (moveF fuel hints cells) fuel st4 with
      | ok st5 =>
        rw [hsw] at h
        dsimp only at h
        have hcn5 := sweepQueueF_cn fuel hints cells fuel st4 st5 hne4 hsw
        simp only [Res.ok.injEq] at h
        subst h
        have hn5 : st5.next_space = (c + 1) &&& 0o77777 := by
          rw [hcn5.2, hcn4.2, hcn3.2, hnext2]
        exact ⟨hn5, hn5⟩
      | err e =>
        rw [hsw] at h
        exact absurd h (by simp)
      | out =>
        rw [hsw] at h
        exact absurd h (by simp)
    | err e =>
      rw [hmc] at h
      exact absurd h (by simp)
    | out =>
      rw [hmc] at h
      exact absurd h (by simp)

/-- The post-gcinit 10-page heap with both space fields set to c: the shape
every state in the closed collect-only run keeps. -/
def trivHeapState (c : Nat) : GC :=
  { gcinitState 5120 512 [] zf zf zf zf with
      current_space := c, next_space := c }

theorem sealCurrent_triv (c : Nat) :
    sealCurrent (trivHeapState c) = trivHeapState c := by
  unfold sealCurrent
  rw [if_neg (fun h => h rfl)]

theorem collect_triv (fuel : Nat) (c : Nat) :
    collect fuel [] [] (trivHeapState c) =
      .ok (trivHeapState ((c + 1) &&& 0o77777)) := by
  unfold collect collectF
  rw [if_neg (fun h => h rfl)]
  dsimp only
  rw [sealCurrent_triv]
  simp only [List.reverse_nil, scanStack, moveCells]
  rw [sweepQueueF.eq_def]
  dsimp only
  rw [if_pos rfl]
  apply congrArg Res.ok
  ext <;> rfl

def collectIter (fuel : Nat) : GC → Nat → GC
  | st, 0 => st
  | st, k + 1 =>
    match collect fuel [] [] st with
    | .ok st1 => collectIter fuel st1 k
    | _ => st

theorem collectIter_triv (fuel : Nat) (k : Nat) : ∀ (c : Nat), c < 32768 →
    collectIter fuel (trivHeapState c) k = trivHeapState ((c + k) % 32768) := by
  induction k with
  | zero =>
    intro c hc
    rw [collectIter]
    rw [Nat.add_zero, Nat.mod_eq_of_lt hc]
  | succ n ih =>
    intro c hc
    rw [collectIter, collect_triv, mask15_eq_mod]
    have h1 : (c + 1) % 32768 < 32768 := Nat.mod_lt _ (by omega)
    dsimp only
    rw [ih ((c + 1) % 32768) h1]
    have h2 : ((c + 1) % 32768 + n) % 32768 = (c + (n + 1)) % 32768 := by
      omega
    rw [h2]

/-- Counterexample for C6: the value 0 is not skipped.  Starting from the
state gcinit leaves for a 10-page heap (space tags current = next = 1) and
running 2^15 - 1 collections with empty stack and no registered globals —
each a real, successful collect call — both space fields wrap around to 0,
the tag reserved for free pages. -/
theorem C6_tag_zero_cex :
    (collectIter 1 (gcinitState 5120 512 [] zf zf zf zf) 32767).current_space
      = 0 ∧
    (collectIter 1 (gcinitState 5120 512 [] zf zf zf zf) 32767).next_space
      = 0 := by
  have hg : gcinitState 5120 512 [] zf zf zf zf = trivHeapState 1 := by
    ext <;> rfl
  rw [hg, collectIter_triv 1 32767 1 (by omega)]
  exact ⟨rfl, rfl⟩

/-- Witness for C6: one successful collect call from the post-gcinit state
advances both space fields from 1 to 2 = (1 + 1) mod 2^15. -/
theorem C6_next_advance_witness :
    (trivHeapState 2).current_space =
      ((trivHeapState 1).current_space + 1) % 32768 ∧
    (trivHeapState 2).next_space =
      ((trivHeapState 1).current_space + 1) % 32768 :=
  C6_next_advance 1 [] [] (trivHeapState 1) (trivHeapState 2) (by
    rw [collect_triv]
    rfl)

theorem collectF_triv (mv : GC → Nat → Res (GC × Nat)) (fuel : Nat) (c : Nat) :
    collectF mv fuel [] [] (trivHeapState c) =
      .ok (trivHeapState ((c + 1) &&& 0o77777)) := by
  unfold collectF
  rw [if_neg (fun h => h rfl)]
  dsimp only
  rw [sealCurrent_triv]
  simp only [List.reverse_nil, scanStack, moveCells]
  rw [sweepQueueF.eq_def]
  dsimp only
  rw [if_pos rfl]
  apply congrArg Res.ok
  ext <;> rfl

theorem gcallocLoop_livelock (mv : GC → Nat → Res (GC × Nat)) (fuel : Nat) :
    ∀ c, gcallocLoopF mv fuel [] [] (trivHeapState c) 2561 = .out := by
  induction fuel with
  | zero =>
    intro c
    rw [gcallocLoopF.eq_def]
    dsimp only
    rw [if_neg (show ¬(2561 ≤ (trivHeapState c).numFreeWordsInCurrent) by
      show ¬(2561 ≤ 0)
      omega)]
  | succ f ih =>
    intro c
    rw [gcallocLoopF.eq_def]
    dsimp only
    rw [if_neg (show ¬(2561 ≤ (trivHeapState c).numFreeWordsInCurrent) by
      show ¬(2561 ≤ 0)
      omega)]
    have hs : ({ sealCurrent (trivHeapState c) with
        numFreeWordsInCurrent := 0 } : GC) = trivHeapState c := by
      rw [sealCurrent_triv]
      ext <;> rfl
    rw [hs]
    unfold allocatepageF
    rw [if_pos (show (trivHeapState c).numOfAllocatedPages +
        (2561 + PAGEWORDS - 1) / PAGEWORDS ≥
        (trivHeapState c).numOfHeapPages / 2 by
      show 0 + (2561 + PAGEWORDS - 1) / PAGEWORDS ≥ 10 / 2
      norm_num [PAGEWORDS, PAGEBYTES, WORDBYTES])]
    rw [collectF_triv]
    dsimp only
    exact ih _

/-- C8, code bug: a request whose word count exceeds the whole heap never
reaches the fatal-error path.  gcalloc(10240, 0) on the 10-page heap needs
2561 words = 21 pages; every trip through the acquisition loop asks
allocatepage for 21 pages, the half-heap watermark test (0 + 21 >= 5) then
diverts the request into collect — which succeeds and frees nothing — and
the loop retries identically, so for every fuel bound the run exhausts
fuel instead of returning or failing.  The out-of-memory diagnostic in
allocatepage is unreachable for such requests. -/
theorem C8_oversized_livelock (fuel : Nat) :
    gcalloc fuel [] [] (gcinitState 5120 512 [] zf zf zf zf) 10240 0 =
      .out := by
  have hg : gcinitState 5120 512 [] zf zf zf zf = trivHeapState 1 := by
    ext <;> rfl
  rw [hg]
  unfold gcalloc gcallocF
  dsimp only
  have hwords : (10240 + WORDBYTES - 1) / WORDBYTES + 1 = 2561 := by
    norm_num [WORDBYTES]
  rw [hwords, gcallocLoop_livelock]

/-! ### Word-alignment of the allocation frontier

firstFreeWordInPage only ever moves by whole words (the bump adds 4*words)
or jumps to a page boundary (allocatepage sets it to a page start), so its
4-byte alignment is preserved by every routine of the module, including
the collections gcalloc may run internally. -/

theorem promoteWalk_ff (page : Nat) : ∀ (st : GC),
    (promoteWalk st page).1.firstFreeWordInPage = st.firstFreeWordInPage := by
  induction page with
  | zero => intro st; rfl
  | succ p ih =>
    intro st
    by_cases h : st.typeMapping (p + 1) = CONTINUED
    · rw [promoteWalk, if_pos h]
      exact ih _
    · rw [promoteWalk, if_neg h]

theorem promote_page_ff (st : GC) (page : Nat) :
    (promote_page st page).1.firstFreeWordInPage = st.firstFreeWordInPage := by
  unfold promote_page
  split
  · dsimp only
    rw [queue_ff]
    exact promoteWalk_ff page st
  · rfl

theorem scanStack_ff (hints : List Nat) : ∀ (st : GC),
    (scanStack st hints).1.firstFreeWordInPage = st.firstFreeWordInPage := by
  induction hints with
  | nil => intro st; rfl
  | cons w ws ih =>
    intro st
    exact (ih (promote_page st (GCP_to_PAGE w)).1).trans
      (promote_page_ff st (GCP_to_PAGE w))

theorem apScan_align (k : Nat) : ∀ st n fr fi st', apScan st n fr fi k = .ok st' →
    4 ∣ st'.firstFreeWordInPage := by
  induction k with
  | zero => intro st n fr fi st' h; exact absurd h (by simp [apScan])
  | succ c ih =>
    intro st n fr fi st' h
    rw [show apScan st n fr fi (c + 1) =
      (if st.space st.firstFreePage ≠ st.current_space ∧
          st.space st.firstFreePage ≠ st.next_space then
        let firstIdx1 := if fr = 0 then st.firstFreePage else fi
        let freeRun1 := fr + 1
        if freeRun1 = n then .ok (apAssign st firstIdx1 n)
        else
          let st1 := { st with firstFreePage := next_page st st.firstFreePage }
          let freeRun2 :=
            if st1.firstFreePage = st1.firstheappage then 0 else freeRun1
          apScan st1 n freeRun2 firstIdx1 c
      else
        let st1 := { st with firstFreePage := next_page st st.firstFreePage }
        let freeRun2 := if st1.firstFreePage = st1.firstheappage then 0 else 0
        apScan st1 n freeRun2 fi c) from rfl] at h
    split at h
    · dsimp only at h
      split at h
      · simp only [Res.ok.injEq] at h
        subst h
        rw [apAssign_ff]
        show 4 ∣ _ * PAGEBYTES
        have hpb : PAGEBYTES = 512 := by norm_num [PAGEBYTES]
        rw [hpb]
        omega
      · exact ih { st with firstFreePage := next_page st st.firstFreePage }
          _ _ _ st' h
    · dsimp only at h
      exact ih { st with firstFreePage := next_page st st.firstFreePage }
        _ _ _ st' h

theorem moveCells_align (mv : GC → Nat → Res (GC × Nat))
    (Hmv : ∀ st cp st' np, 4 ∣ st.firstFreeWordInPage →
      mv st cp = .ok (st', np) → 4 ∣ st'.firstFreeWordInPage)
    (l : List Nat) : ∀ (st st' : GC), 4 ∣ st.firstFreeWordInPage →
    moveCells mv l st = .ok st' → 4 ∣ st'.firstFreeWordInPage := by
  induction l with
  | nil =>
    intro st st' hA h
    rw [moveCells] at h
    simp only [Res.ok.injEq] at h
    subst h
    exact hA
  | cons c cs ih =>
    intro st st' hA h
    rw [moveCells] at h
    cases hm : mv st (st.mem c) with
    | ok pr =>
      obtain ⟨st1, np⟩ := pr
      rw [hm] at h
      dsimp only at h
      exact ih { st1 with mem := upd st1.mem c np } st'
        (Hmv st (st.mem c) st1 np hA hm) h
    | err e =>
      rw [hm] at h
      exact absurd h (by simp)
    | out =>
      rw [hm] at h
      exact absurd h (by simp)

theorem sweepPtrs_align (mv : GC → Nat → Res (GC × Nat))
    (Hmv : ∀ st cp st' np, 4 ∣ st.firstFreeWordInPage →
      mv st cp = .ok (st', np) → 4 ∣ st'.firstFreeWordInPage)
    (cnt : Nat) : ∀ (pp : Nat) (st st' : GC), 4 ∣ st.firstFreeWordInPage →
    sweepPtrs mv cnt pp st = .ok st' → 4 ∣ st'.firstFreeWordInPage := by
  induction cnt with
  | zero =>
    intro pp st st' hA h
    rw [sweepPtrs] at h
    simp only [Res.ok.injEq] at h
    subst h
    exact hA
  | succ n ih =>
    intro pp st st' hA h
    rw [sweepPtrs] at h
    cases hm : mv st (st.mem pp) with
    | ok pr =>
      obtain ⟨st1, np⟩ := pr
      rw [hm] at h
      dsimp only at h
      exact ih (pp + 4) { st1 with mem := upd st1.mem pp np } st'
        (Hmv st (st.mem pp) st1 np hA hm) h
    | err e =>
      rw [hm] at h
      exact absurd h (by simp)
    | out =>
      rw [hm] at h
      exact absurd h (by simp)

theorem sweepPageF_align (mv : GC → Nat → Res (GC × Nat))
    (Hmv : ∀ st cp st' np, 4 ∣ st.firstFreeWordInPage →
      mv st cp = .ok (st', np) → 4 ∣ st'.firstFreeWordInPage)
    (fuel : Nat) : ∀ (st : GC) (cp : Nat) (st' : GC),
    4 ∣ st.firstFreeWordInPage →
    sweepPageF mv fuel st cp = .ok st' → 4 ∣ st'.firstFreeWordInPage := by
  induction fuel with
  | zero =>
    intro st cp st' hA h
    rw [sweepPageF.eq_def] at h
    dsimp only at h
    split at h
    · exact absurd h (by simp)
    · simp only [Res.ok.injEq] at h
      subst h
      exact hA
  | succ f ih =>
    intro st cp st' hA h
    rw [sweepPageF.eq_def] at h
    dsimp only at h
    split at h
    · cases hp : sweepPtrs mv (HEADER_PTRS (st.mem cp)) (cp + 4) st with
      | ok st1 =>
        rw [hp] at h
        dsimp only at h
        exact ih st1 _ st' (sweepPtrs_align mv Hmv _ (cp + 4) st st1 hA hp) h
      | err e =>
        rw [hp] at h
        exact absurd h (by simp)
      | out =>
        rw [hp] at h
        exact absurd h (by simp)
    · simp only [Res.ok.injEq] at h
      subst h
      exact hA

theorem sweepQueueF_align (mv : GC → Nat → Res (GC × Nat))
    (Hmv : ∀ st cp st' np, 4 ∣ st.firstFreeWordInPage →
      mv st cp = .ok (st', np) → 4 ∣ st'.firstFreeWordInPage)
    (fuel : Nat) : ∀ (st st' : GC), 4 ∣ st.firstFreeWordInPage →
    sweepQueueF mv fuel st = .ok st' → 4 ∣ st'.firstFreeWordInPage := by
  induction fuel with
  | zero =>
    intro st st' hA h
    rw [sweepQueueF.eq_def] at h
    dsimp only at h
    split at h
    · simp only [Res.ok.injEq] at h
      subst h
      exact hA
    · exact absurd h (by simp)
  | succ f ih =>
    intro st st' hA h
    rw [sweepQueueF.eq_def] at h
    dsimp only at h
    split at h
    · simp only [Res.ok.injEq] at h
      subst h
      exact hA
    · cases hp : sweepPageF mv f st (PAGE_to_GCP st.queue_head) with
      | ok st1 =>
        rw [hp] at h
        dsimp only at h
        exact ih { st1 with queue_head := st1.pageQueue st1.queue_head } st'
          (sweepPageF_align mv Hmv f st _ st1 hA hp) h
      | err e =>
        rw [hp] at h
        exact absurd h (by simp)
      | out =>
        rw [hp] at h
        exact absurd h (by simp)

theorem collectF_align (mv : GC → Nat → Res (GC × Nat))
    (Hmv : ∀ st cp st' np, 4 ∣ st.firstFreeWordInPage →
      mv st cp = .ok (st', np) → 4 ∣ st'.firstFreeWordInPage)
    (fuel : Nat) (hints cells : List Nat) (st st' : GC)
    (hA : 4 ∣ st.firstFreeWordInPage)
    (h : collectF mv fuel hints cells st = .ok st') :
    4 ∣ st'.firstFreeWordInPage := by
  unfold collectF at h
  split at h
  · exact absurd h (by simp)
  · dsimp only at h
    set st2 : GC :=
      { sealCurrent st with
          next_space := ((sealCurrent st).current_space + 1) &&& 0o77777,
          numOfAllocatedPages := 0,
          queue_head := 0 } with hst2
    have hA2 : 4 ∣ st2.firstFreeWordInPage := by
      rw [hst2]
      show 4 ∣ (sealCurrent st).firstFreeWordInPage
      rw [sealCurrent_ff]
      exact hA
    have hA3 : 4 ∣ ((scanStack st2 hints).1).firstFreeWordInPage := by
      rw [scanStack_ff]
      exact hA2
    cases hmc : moveCells mv cells.reverse (scanStack st2 hints).1 with
    | ok st4 =>
      rw [hmc] at h
      dsimp only at h
      have hA4 := moveCells_align mv Hmv cells.reverse _ st4 hA3 hmc
      cases hsw : sweepQueueF mv fuel st4 with
      | ok st5 =>
        rw [hsw] at h
        dsimp only at h
        simp only [Res.ok.injEq] at h
        subst h
        show 4 ∣ st5.firstFreeWordInPage
        exact sweepQueueF_align mv Hmv fuel st4 st5 hA4 hsw
      | err e =>
        rw [hsw] at h
        exact absurd h (by simp)
      | out =>
        rw [hsw] at h
        exact absurd h (by simp)
    | err e =>
      rw [hmc] at h
      exact absurd h (by simp)
    | out =>
      rw [hmc] at h
      exact absurd h (by simp)

theorem allocatepageF_align (mv : GC → Nat → Res (GC × Nat))
    (Hmv : ∀ st cp st' np, 4 ∣ st.firstFreeWordInPage →
      mv st cp = .ok (st', np) → 4 ∣ st'.firstFreeWordInPage)
    (fuel : Nat) (hints cells : List Nat) (st st' : GC) (n : Nat)
    (hA : 4 ∣ st.firstFreeWordInPage)
    (h : allocatepageF mv fuel hints cells st n = .ok st') :
    4 ∣ st'.firstFreeWordInPage := by
  unfold allocatepageF at h
  split at h
  · exact collectF_align mv Hmv fuel hints cells st st' hA h
  · exact apScan_align _ st n 0 0 st' h

theorem gcallocLoopF_align (mv : GC → Nat → Res (GC × Nat))
    (Hmv : ∀ st cp st' np, 4 ∣ st.firstFreeWordInPage →
      mv st cp = .ok (st', np) → 4 ∣ st'.firstFreeWordInPage)
    (fuel : Nat) : ∀ (hints cells : List Nat) (st : GC) (words : Nat) (st' : GC),
    4 ∣ st.firstFreeWordInPage →
    gcallocLoopF mv fuel hints cells st words = .ok st' →
    4 ∣ st'.firstFreeWordInPage := by
  induction fuel with
  | zero =>
    intro hints cells st words st' hA h
    rw [gcallocLoopF.eq_def] at h
    dsimp only at h
    split at h
    · simp only [Res.ok.injEq] at h
      subst h
      exact hA
    · exact absurd h (by simp)
  | succ f ih =>
    intro hints cells st words st' hA h
    rw [gcallocLoopF.eq_def] at h
    dsimp only at h
    split at h
    · simp only [Res.ok.injEq] at h
      subst h
      exact hA
    · cases hap : allocatepageF mv f hints cells
          { sealCurrent st with numFreeWordsInCurrent := 0 }
          ((words + PAGEWORDS - 1) / PAGEWORDS) with
      | ok st2 =>
        rw [hap] at h
        dsimp only at h
        have hA1 : 4 ∣ ({ sealCurrent st with
            numFreeWordsInCurrent := 0 } : GC).firstFreeWordInPage := by
          show 4 ∣ (sealCurrent st).firstFreeWordInPage
          rw [sealCurrent_ff]
          exact hA
        exact ih hints cells st2 words st'
          (allocatepageF_align mv Hmv f hints cells _ st2 _ hA1 hap) h
      | err e =>
        rw [hap] at h
        exact absurd h (by simp)
      | out =>
        rw [hap] at h
        exact absurd h (by simp)

theorem gcallocF_align (mv : GC → Nat → Res (GC × Nat))
    (Hmv : ∀ st cp st' np, 4 ∣ st.firstFreeWordInPage →
      mv st cp = .ok (st', np) → 4 ∣ st'.firstFreeWordInPage)
    (fuel : Nat) (hints cells : List Nat) (st st4 : GC) (bytes ptrs p : Nat)
    (hA : 4 ∣ st.firstFreeWordInPage)
    (h : gcallocF mv fuel hints cells st bytes ptrs = .ok (st4, p)) :
    4 ∣ st4.firstFreeWordInPage := by
  unfold gcallocF at h
  dsimp only at h
  cases hl : gcallocLoopF mv fuel hints cells st
      ((bytes + WORDBYTES - 1) / WORDBYTES + 1) with
  | ok st1 =>
    rw [hl] at h
    dsimp only at h
    have hA1 := gcallocLoopF_align mv Hmv fuel hints cells st _ st1 hA hl
    simp only [Res.ok.injEq, Prod.mk.injEq] at h
    obtain ⟨h4, _⟩ := h
    subst h4
    split
    · show 4 ∣ (nullPtrsFrom _ _ 1 ptrs).firstFreeWordInPage + 4 * _
      rw [nullPtrsFrom_ff]
      show 4 ∣ st1.firstFreeWordInPage + 4 * _
      omega
    · show 4 ∣ (nullPtrsFrom _ _ 1 ptrs).firstFreeWordInPage
      rw [nullPtrsFrom_ff]
      exact hA1
  | err e =>
    rw [hl] at h
    exact absurd h (by simp)
  | out =>
    rw [hl] at h
    exact absurd h (by simp)

theorem moveF_align (fuel : Nat) : ∀ (hints cells : List Nat) (st : GC)
    (cp : Nat) (st' : GC) (np : Nat), 4 ∣ st.firstFreeWordInPage →
    moveF fuel hints cells st cp = .ok (st', np) →
    4 ∣ st'.firstFreeWordInPage := by
  induction fuel with
  | zero =>
    intro hints cells st cp st' np _ h
    exact absurd h (by simp [moveF])
  | succ f ih =>
    intro hints cells st cp st' np hA h
    rw [moveF_unfold] at h
    split at h
    · simp only [Res.ok.injEq, Prod.mk.injEq] at h
      obtain ⟨h1, _⟩ := h
      subst h1
      exact hA
    · split at h
      · exact absurd h (by simp)
      · split at h
        · simp only [Res.ok.injEq, Prod.mk.injEq] at h
          obtain ⟨h1, _⟩ := h
          subst h1
          exact hA
        · split at h
          · simp only [Res.ok.injEq, Prod.mk.injEq] at h
            obtain ⟨h1, _⟩ := h
            subst h1
            exact hA
          · cases hg : gcallocF (moveF f hints cells) f hints cells st
                ((HEADER_BYTES (st.mem (cp - 4)) + (2 ^ 32 - 4)) % 2 ^ 32) 0 with
            | ok pr =>
              obtain ⟨st1, np1⟩ := pr
              rw [hg] at h
              dsimp only at h
              simp only [Res.ok.injEq, Prod.mk.injEq] at h
              obtain ⟨h1, _⟩ := h
              have hA1 := gcallocF_align (moveF f hints cells)
                (fun s c s' n hA' h' => ih hints cells s c s' n hA' h')
                f hints cells st st1 _ 0 np1 hA hg
              subst h1
              show 4 ∣ (copyWords st1 _ _ _).firstFreeWordInPage
              rw [copyWords_ff]
              exact hA1
            | err e =>
              rw [hg] at h
              exact absurd h (by simp)
            | out =>
              rw [hg] at h
              exact absurd h (by simp)

/-- C2, corrected: gcalloc's header encodes the word count in a 16-bit
field and the pointer count in a 15-bit field, so the claimed decoding
only holds for requests whose word count ceil(bytes/4) + 1 is below 2^16
and whose pointer count is below 2^15; a larger request writes a header
whose decoded size is the word count mod 2^16 (see the counterexample).
Within those bounds, from any state whose allocation frontier is
word-aligned (gcinit starts it at 0 and every routine preserves the
alignment), a successful gcalloc(bytes, ptrs) = p has p word-aligned and
one word past the header, the header word decodes to exactly
ceil(bytes/4) + 1 words and ptrs pointers with low bit 1, and the first
ptrs user words are null. -/
theorem C2_alloc_header (fuel : Nat) (hints cells : List Nat) (st st4 : GC)
    (bytes ptrs p : Nat)
    (halign : 4 ∣ st.firstFreeWordInPage)
    (hw : (bytes + WORDBYTES - 1) / WORDBYTES + 1 < 65536)
    (hp : ptrs < 32768)
    (h : gcalloc fuel hints cells st bytes ptrs = .ok (st4, p)) :
    p % 4 = 0 ∧
    st4.mem (p - 4) =
      MAKE_HEADER ((bytes + WORDBYTES - 1) / WORDBYTES + 1) ptrs ∧
    HEADER_WORDS (st4.mem (p - 4)) = (bytes + WORDBYTES - 1) / WORDBYTES + 1 ∧
    HEADER_PTRS (st4.mem (p - 4)) = ptrs ∧
    st4.mem (p - 4) % 2 = 1 ∧
    (∀ i, 1 ≤ i → i ≤ ptrs → st4.mem (p - 4 + 4 * i) = 0) := by
  unfold gcalloc gcallocF at h
  dsimp only at h
  cases hl : gcallocLoopF (moveF fuel hints cells) fuel hints cells st
      ((bytes + WORDBYTES - 1) / WORDBYTES + 1) with
  | ok st1 =>
    rw [hl] at h
    dsimp only at h
    simp only [Res.ok.injEq, Prod.mk.injEq] at h
    obtain ⟨h4, hpd⟩ := h
    have hA1 : 4 ∣ st1.firstFreeWordInPage :=
      gcallocLoopF_align (moveF fuel hints cells)
        (fun s c s' n hA' h' => moveF_align fuel hints cells s c s' n hA' h')
        fuel hints cells st _ st1 halign hl
    set H := MAKE_HEADER ((bytes + WORDBYTES - 1) / WORDBYTES + 1) ptrs with hH
    set N := nullPtrsFrom { st1 with mem := upd st1.mem st1.firstFreeWordInPage H } st1.firstFreeWordInPage 1 ptrs with hN
    have hffN : N.firstFreeWordInPage = st1.firstFreeWordInPage := by
      rw [hN, nullPtrsFrom_ff]
    have hpv : p = st1.firstFreeWordInPage + 4 := by
      rw [← hpd, hffN]
    have hmem4 : st4.mem = N.mem := by
      rw [← h4]
      split <;> rfl
    have hhd : p - 4 = st1.firstFreeWordInPage := by omega
    have hheader : st4.mem (p - 4) = H := by
      rw [hmem4, hhd, hN]
      rw [nullPtrsFrom_mem_out ptrs _ _ 1 st1.firstFreeWordInPage
        (fun j hj1 hj2 => by omega)]
      exact upd_same _ _ _
    refine ⟨by omega, hheader, ?_, ?_, ?_, ?_⟩
    · rw [hheader, hH]
      exact HEADER_WORDS_make _ _ hw
    · rw [hheader, hH]
      exact HEADER_PTRS_make _ _ hw hp
    · rw [hheader, hH]
      exact MAKE_HEADER_mod_two _ _
    · intro i hi1 hi2
      rw [hmem4, hhd, hN]
      exact nullPtrsFrom_mem_in ptrs _ _ 1 i hi1 (by omega)
  | err e =>
    rw [hl] at h
    exact absurd h (by simp)
  | out =>
    rw [hl] at h
    exact absurd h (by simp)

/-- The state allocatepage leaves after granting a fresh 512-page run on a
large (1026-page) heap: 512 * 128 = 65536 free words on the current run,
allocation frontier at the start of heap page 1.  From here the request
gcalloc(262140, 0) — 65536 words — is served by the bump path alone. -/
def stOv : GC :=
  { firstheappage := 1, lastheappage := 1026, numOfHeapPages := 1026,
    numFreeWordsInCurrent := 65536, firstFreeWordInPage := 512,
    numOfAllocatedPages := 512, firstFreePage := 514,
    space := zf, pageQueue := zf, typeMapping := zf,
    queue_head := 0, queue_tail := 0,
    current_space := 1, next_space := 1, mem := zf }

/-- Counterexample for C2 as stated: gcalloc(262140, 0) asks for exactly
2^16 words; the request succeeds and returns pointer 516, but the header
word MAKE_HEADER 65536 0 = 131073 decodes to 0 words — the size field is
16 bits wide and the word count overflows it into the pointer-count field,
which decodes as 1. -/
theorem C2_header_overflow_cex :
    gcalloc 1 [] [] stOv 262140 0 =
      .ok ({ stOv with
               mem := upd stOv.mem 512 (MAKE_HEADER 65536 0),
               numFreeWordsInCurrent := 0 }, 516) ∧
    (262140 + WORDBYTES - 1) / WORDBYTES + 1 = 65536 ∧
    HEADER_WORDS (MAKE_HEADER 65536 0) = 0 ∧
    HEADER_PTRS (MAKE_HEADER 65536 0) = 1 := by
  refine ⟨rfl, by norm_num [WORDBYTES], by decide, by decide⟩

/-- The state gcalloc(50, 2) leaves when run at stOv: a 14-word object at
frontier 512 with its 2 pointer slots nulled. -/
def stOvSmall : GC :=
  { stOv with
      mem := upd (upd (upd stOv.mem 512 (MAKE_HEADER 14 2)) 516 0) 520 0,
      numFreeWordsInCurrent := 65536 - 14,
      firstFreeWordInPage := 512 + 4 * 14 }

/-- Witness for C2: gcalloc(50, 2) = 516 from stOv; 14 words < 2^16 and
2 pointers < 2^15, and the returned object has the claimed aligned
pointer, exact header and nulled pointer slots. -/
theorem C2_alloc_header_witness :
    516 % 4 = 0 ∧
    stOvSmall.mem (516 - 4) = MAKE_HEADER 14 2 ∧
    HEADER_WORDS (stOvSmall.mem (516 - 4)) = 14 ∧
    HEADER_PTRS (stOvSmall.mem (516 - 4)) = 2 ∧
    stOvSmall.mem (516 - 4) % 2 = 1 ∧
    (∀ i, 1 ≤ i → i ≤ 2 → stOvSmall.mem (516 - 4 + 4 * i) = 0) :=
  C2_alloc_header 1 [] [] stOv stOvSmall 50 2 516 (by decide) (by decide)
    (by decide) rfl

/-- The block partition the sweep's object walk relies on: covers m a b
holds when the byte range from a to b is a chain of header-led blocks —
each block starts with a live header (low bit 1) whose word count is
positive, and the next block starts exactly HEADER_WORDS words later. -/
inductive covers (m : Nat → Nat) : Nat → Nat → Prop
  | nil (a : Nat) : covers m a a
  | cons (a b : Nat) : m a % 2 = 1 → 0 < HEADER_WORDS (m a) →
      covers m (a + 4 * HEADER_WORDS (m a)) b → covers m a b

theorem covers_le (m : Nat → Nat) (a b : Nat) (h : covers m a b) : a ≤ b := by
  induction h with
  | nil => exact Nat.le_refl _
  | cons a b h1 h2 h3 ih => omega

theorem covers_stable (m m' : Nat → Nat) (a b : Nat) (h : covers m a b)
    (hsame : ∀ x, a ≤ x → x < b → m' x = m x) : covers m' a b := by
  induction h with
  | nil => exact covers.nil _
  | cons a b h1 h2 h3 ih =>
    have hab : a < b := by
      have := covers_le m _ b h3
      omega
    have hx : m' a = m a := hsame a (Nat.le_refl _) hab
    refine covers.cons a b (by rw [hx]; exact h1) (by rw [hx]; exact h2) ?_
    rw [hx]
    exact ih (fun x hx1 hx2 => hsame x (by omega) hx2)

theorem covers_append (m : Nat → Nat) (a b c : Nat) (h1 : covers m a b)
    (h2 : covers m b c) : covers m a c := by
  induction h1 with
  | nil => exact h2
  | cons a b hh1 hh2 hh3 ih => exact covers.cons a c hh1 hh2 (ih h2)

theorem covers_head (m : Nat → Nat) (a b : Nat) (h : covers m a b)
    (hne : a ≠ b) : m a % 2 = 1 ∧ 0 < HEADER_WORDS (m a) := by
  cases h with
  | nil => exact absurd rfl hne
  | cons _ _ h1 h2 _ => exact ⟨h1, h2⟩

/-- C9, confirmed: abandoning a partially filled page (the seal step run
by both gcalloc and collect) writes a live filler header — low bit 1,
pointer count 0 — whose word count is exactly the remaining free words
(the count fits the 16-bit size field for every single allocation run of
less than 512 pages), so a page range already partitioned into header-led
blocks up to the frontier stays partitioned through the frontier's page
end, and the sweep's object walk over it always lands on a live header
and advances by a positive word count. -/
theorem C9_page_partition (st : GC) (start : Nat)
    (hnf : 0 < st.numFreeWordsInCurrent)
    (hlt : st.numFreeWordsInCurrent < 65536)
    (hcov : covers st.mem start st.firstFreeWordInPage) :
    (sealCurrent st).mem st.firstFreeWordInPage =
      MAKE_HEADER st.numFreeWordsInCurrent 0 ∧
    (sealCurrent st).mem st.firstFreeWordInPage % 2 = 1 ∧
    HEADER_PTRS ((sealCurrent st).mem st.firstFreeWordInPage) = 0 ∧
    HEADER_WORDS ((sealCurrent st).mem st.firstFreeWordInPage) =
      st.numFreeWordsInCurrent ∧
    covers (sealCurrent st).mem start
      (st.firstFreeWordInPage + 4 * st.numFreeWordsInCurrent) ∧
    (∀ a, covers (sealCurrent st).mem a
        (st.firstFreeWordInPage + 4 * st.numFreeWordsInCurrent) →
      a ≠ st.firstFreeWordInPage + 4 * st.numFreeWordsInCurrent →
      (sealCurrent st).mem a % 2 = 1 ∧
        0 < HEADER_WORDS ((sealCurrent st).mem a)) := by
  have hmem : (sealCurrent st).mem =
      upd st.mem st.firstFreeWordInPage
        (MAKE_HEADER st.numFreeWordsInCurrent 0) := by
    unfold sealCurrent
    rw [if_pos (by omega)]
  have hat : (sealCurrent st).mem st.firstFreeWordInPage =
      MAKE_HEADER st.numFreeWordsInCurrent 0 := by
    rw [hmem]
    exact upd_same _ _ _
  have hwords : HEADER_WORDS ((sealCurrent st).mem st.firstFreeWordInPage) =
      st.numFreeWordsInCurrent := by
    rw [hat]
    exact HEADER_WORDS_make _ _ hlt
  refine ⟨hat, by rw [hat]; exact MAKE_HEADER_mod_two _ _, ?_, hwords, ?_, ?_⟩
  · rw [hat]
    exact HEADER_PTRS_make _ _ hlt (by omega)
  · have hlow : covers (sealCurrent st).mem start st.firstFreeWordInPage := by
      refine covers_stable st.mem _ start st.firstFreeWordInPage hcov ?_
      intro x _ hx2
      rw [hmem]
      exact upd_other _ _ _ _ (by omega)
    refine covers_append _ start st.firstFreeWordInPage _ hlow ?_
    refine covers.cons _ _ (by rw [hat]; exact MAKE_HEADER_mod_two _ _)
      (by rw [hwords]; exact hnf) ?_
    rw [hwords]
    exact covers.nil _
  · intro a hc hne
    exact covers_head _ a _ hc hne

/-- A state mid-page: one 3-word object (1 pointer) at word address 1024,
frontier at 1036, 5 free words left on the page. -/
def wC9 : GC :=
  { trivHeapState 1 with
      mem := upd zf 1024 (MAKE_HEADER 3 1),
      firstFreeWordInPage := 1036,
      numFreeWordsInCurrent := 5 }

/-- Witness for C9: sealing wC9 writes the filler MAKE_HEADER 5 0 at 1036
and the range 1024..1056 is covered by the object block plus the filler
block, every block head live with positive advance. -/
theorem C9_page_partition_witness :
    (sealCurrent wC9).mem 1036 = MAKE_HEADER 5 0 ∧
    (sealCurrent wC9).mem 1036 % 2 = 1 ∧
    HEADER_PTRS ((sealCurrent wC9).mem 1036) = 0 ∧
    HEADER_WORDS ((sealCurrent wC9).mem 1036) = 5 ∧
    covers (sealCurrent wC9).mem 1024 (1036 + 4 * 5) ∧
    (∀ a, covers (sealCurrent wC9).mem a (1036 + 4 * 5) →
      a ≠ 1036 + 4 * 5 →
      (sealCurrent wC9).mem a % 2 = 1 ∧
        0 < HEADER_WORDS ((sealCurrent wC9).mem a)) :=
  C9_page_partition wC9 1024 (by decide) (by decide)
    (covers.cons 1024 1036 (by decide) (by decide) (covers.nil 1036))
